import Mathlib

/-!
Verification development for the numeric inverse-kinematics controller
(`IKController.js`) of the AxisWebInfra repository.

The JavaScript source is shallowly embedded here.  Machine floating-point
numbers are embedded as rationals (every IEEE double is a rational, and the
claims under study are control-flow and order/clamp properties, not
rounding-error properties).  The host black boxes — the MuJoCo forward
kinematics (`mj_forward` + `getPosition`/`getQuaternion` for the end-effector
body) and the transcendental library functions `Math.sqrt`, `Math.acos`,
`Math.atan2` — are abstracted as arbitrary total functions supplied by an
environment record, exactly the "Kinematic Provider" interface the spec
describes.  JavaScript exceptions are embedded with `Except`.
-/

namespace IKCheck

/-- Three-component vector (THREE.Vector3), generic in the scalar type. -/
structure V3 (K : Type) where
  x : K
  y : K
  z : K
deriving DecidableEq, Repr

/-- Quaternion (THREE.Quaternion), generic in the scalar type. -/
structure Quat (K : Type) where
  w : K
  x : K
  y : K
  z : K
deriving DecidableEq, Repr

/-- `THREE.MathUtils.clamp(value, min, max) = Math.max(min, Math.min(max, value))`. -/
def clampQ (value lo hi : ℚ) : ℚ := max lo (min hi value)

/-- The controller configuration (`DEFAULT_CONFIG` merged with the user
config).  In the source every read is `this.config.field` or
`this.config.field ?? d`; since this record always carries every field the
`??` fallbacks disappear (they only fire for absent fields).  Counters and
iteration caps are embedded as `Nat` (they are only ever compared with
integer counters). -/
structure Config where
  endEffectorBodyName : Option String
  jointNames : List String
  mode : String
  translationGain : ℚ
  rotationGain : ℚ
  maxIterations : Nat
  stepLimit : ℚ
  posWeight : ℚ
  oriWeight : ℚ
  limitWeight : ℚ
  holdOrientationOnTranslate : Bool
  holdOriWeight : ℚ
  lockOrientationOnTranslate : Bool
  lambdaInitial : ℚ
  lambdaFactor : ℚ
  lambdaMin : ℚ
  lambdaMax : ℚ
  stepQualityMin : ℚ
  lmMaxTrials : Nat
  useJacobianTransposeFallback : Bool
  jtFallbackDampingScale : ℚ
  jtFallbackUseGain : Bool
  jtFallbackMaxConsecutive : Nat
  useSmartSolverSelection : Bool
  smartSelectionMarginFraction : ℚ
  useSafetyMargin : Bool
  safetyMarginFraction : ℚ
  limitMarginFraction : ℚ
  stallMinImprovement : ℚ
  stallMaxIterations : Nat
  snapTargetToCurrentOnStall : Bool
  runningIterations : Nat
  maxCtrlOffset : ℚ
  maxTargetLead : ℚ

/-- `DEFAULT_CONFIG` of the source (with `maxTargetLead` at its `?? 0.03`
fallback value, since `DEFAULT_CONFIG` does not list it). -/
def defConfig : Config where
  endEffectorBodyName := none
  jointNames := []
  mode := "auto"
  translationGain := 3/10
  rotationGain := 3/10
  maxIterations := 5
  stepLimit := 5/100
  posWeight := 50
  oriWeight := 100
  limitWeight := 10
  holdOrientationOnTranslate := true
  holdOriWeight := 2000
  lockOrientationOnTranslate := true
  lambdaInitial := 1/10
  lambdaFactor := 2
  lambdaMin := 1/100000
  lambdaMax := 10
  stepQualityMin := 1/1000
  lmMaxTrials := 10
  useJacobianTransposeFallback := true
  jtFallbackDampingScale := 3/2
  jtFallbackUseGain := true
  jtFallbackMaxConsecutive := 10
  useSmartSolverSelection := true
  smartSelectionMarginFraction := 2/100
  useSafetyMargin := true
  safetyMarginFraction := 6/100
  limitMarginFraction := 5/100
  stallMinImprovement := 1/10000
  stallMaxIterations := 3
  snapTargetToCurrentOnStall := true
  runningIterations := 1
  maxCtrlOffset := 1/2
  maxTargetLead := 3/100

/-! ## `applyJointIncrement` per-DOF command computation

`applyJointIncrement` (IKController.js lines 1326-1442) computes, for each
controlled DOF, a new commanded value from the previous commanded value and
the step, through a fixed pipeline of clamps.  The pipeline for one DOF is
embedded below stage by stage; `newCtrlValue` is their composition in source
order.  `ctrlRange? = some (lo, hi)` embeds "`model.actuator_ctrlrange` is
present and long enough for this actuator" and likewise `jntRange?` embeds
"the joint id is mapped and `model.jnt_range` is long enough". -/

/-- Stage (a): clamp to the actuator ctrlrange when present and `hi > lo`
(source lines 1367-1376). -/
def ctrlRangeStage (ctrlRange? : Option (ℚ × ℚ)) (t : ℚ) : ℚ :=
  match ctrlRange? with
  | none => t
  | some (lo, hi) => if lo < hi then clampQ t lo hi else t

/-- The safety margin `span * safetyMarginFraction` when `useSafetyMargin`,
else `0` (source line 1389). -/
def safetyMarginOf (cfg : Config) (jlo jhi : ℚ) : ℚ :=
  if cfg.useSafetyMargin then (jhi - jlo) * cfg.safetyMarginFraction else 0

/-- Stage (b), directional "soft wall" (source lines 1398-1424): sequential
lower-limit check then upper-limit check, each reading the value the previous
one left.  `q` is the current measured position, `s` the raw step. -/
def safetyStage (cfg : Config) (jlo jhi q s t : ℚ) : ℚ :=
  let sm := safetyMarginOf cfg jlo jhi
  if cfg.useSafetyMargin ∧ 0 < sm then
    let safeLo := jlo + sm
    let safeHi := jhi - sm
    let t1 := if q ≤ safeLo then (if s < 0 then max t q else t)
              else if t < safeLo then safeLo else t
    if safeHi ≤ q then (if 0 < s then min t1 q else t1)
    else if safeHi < t1 then safeHi else t1
  else t

/-- Stage (b) wrapper: when the joint range is present and `jhi > jlo`, apply
the directional soft wall and then the hard clamp to `[jlo, jhi]` (source
lines 1379-1429). -/
def jointRangeStage (cfg : Config) (jntRange? : Option (ℚ × ℚ)) (q s t : ℚ) : ℚ :=
  match jntRange? with
  | none => t
  | some (jlo, jhi) =>
      if jlo < jhi then clampQ (safetyStage cfg jlo jhi q s t) jlo jhi else t

/-- Stage (c), anti-windup clamp around the current measured position
(source lines 1431-1435). -/
def antiWindupStage (cfg : Config) (q t : ℚ) : ℚ :=
  if 0 < cfg.maxCtrlOffset then clampQ t (q - cfg.maxCtrlOffset) (q + cfg.maxCtrlOffset)
  else t

/-- The complete per-DOF command computation of `applyJointIncrement`:
`targetQpos = prevCtrl + step` (line 1365), then stages (a), (b), (c) in
source order; the result is written to `data.ctrl[actuatorIdx]` (line 1438). -/
def newCtrlValue (cfg : Config) (ctrlRange? jntRange? : Option (ℚ × ℚ))
    (q prevCtrl s : ℚ) : ℚ :=
  antiWindupStage cfg q
    (jointRangeStage cfg jntRange? q s
      (ctrlRangeStage ctrlRange? (prevCtrl + s)))

/-! ## `computeJacobianTransposeFallbackStep` per-DOF attenuation

The fallback step (source lines 911-1026) computes a raw `Jᵗ·error`
component per DOF and then attenuates it in three per-DOF steps: the
symmetric proximity factor `jointMargins[k]` (lines 933-973), the
directional limit factor (lines 986-1014, applied before multiplying by
`jointMargins[k]` at line 1013), and the damping scale plus clamp
(lines 1017-1023).  The loops of the source are data-independent across
DOFs, so the composition is embedded per component. -/

/-- `jointMargins[k]` (source lines 933-973): 1 without a usable range or
when `hi ≤ lo`; else 0 at or beyond a limit, `minDist/margin` inside the
margin, 1 otherwise. -/
def symFactor (cfg : Config) (jntRange? : Option (ℚ × ℚ)) (q : ℚ) : ℚ :=
  match jntRange? with
  | none => 1
  | some (lo, hi) =>
      if lo < hi then
        let margin := max (1/1000000) ((hi - lo) * cfg.limitMarginFraction)
        let minDist := min (q - lo) (hi - q)
        if minDist ≤ 0 then 0
        else if minDist < margin then minDist / margin
        else 1
      else 1

/-- The directional attenuation (source lines 990-1009): uses a doubled
margin, attenuates a negative step near the lower limit and a positive step
near the upper limit; note the source does not test `hi > lo` here. -/
def dirAttenuate (cfg : Config) (jntRange? : Option (ℚ × ℚ)) (q s : ℚ) : ℚ :=
  match jntRange? with
  | none => s
  | some (lo, hi) =>
      let margin := max (1/1000000) ((hi - lo) * (cfg.limitMarginFraction * 2))
      if q < lo + margin ∧ s < 0 then s * max 0 ((q - lo) / margin)
      else if hi - margin < q ∧ 0 < s then s * max 0 ((hi - q) / margin)
      else s

/-- One component of the fallback step: raw component `s`, directional
attenuation, symmetric proximity factor, damping scale, clamp to
`[-stepLimit, stepLimit]` (source lines 986-1023). -/
def jtComponent (cfg : Config) (jntRange? : Option (ℚ × ℚ)) (q s : ℚ) : ℚ :=
  clampQ (dirAttenuate cfg jntRange? q s * symFactor cfg jntRange? q
          * cfg.jtFallbackDampingScale)
    (-cfg.stepLimit) cfg.stepLimit

/-! ## Vector and quaternion operations (THREE.js)

Generic in a linear ordered field `K`: the update machinery instantiates
`K := ℚ` (machine floats are rationals) with the host's `Math.sqrt` /
`Math.acos` as abstract functions, while the C7 analysis instantiates
`K := ℝ` with `Real.sqrt` / `Real.arccos`. -/

/-- Componentwise vector addition. -/
instance {K : Type} [Add K] : Add (V3 K) :=
  ⟨fun a b => ⟨a.x + b.x, a.y + b.y, a.z + b.z⟩⟩

/-- Componentwise vector subtraction. -/
instance {K : Type} [Sub K] : Sub (V3 K) :=
  ⟨fun a b => ⟨a.x - b.x, a.y - b.y, a.z - b.z⟩⟩

/-- Componentwise vector negation. -/
instance {K : Type} [Neg K] : Neg (V3 K) :=
  ⟨fun a => ⟨-a.x, -a.y, -a.z⟩⟩

/-- `THREE.Vector3.multiplyScalar`. -/
instance {K : Type} [Mul K] : SMul K (V3 K) :=
  ⟨fun c v => ⟨c * v.x, c * v.y, c * v.z⟩⟩

/-- `THREE.Vector3.length()` with the scalar square root supplied. -/
def v3len {K : Type} [LinearOrderedField K] (sqrt : K → K) (v : V3 K) : K :=
  sqrt (v.x * v.x + v.y * v.y + v.z * v.z)

/-- `THREE.Quaternion.multiplyQuaternions(a, b)` (Hamilton product `a * b`). -/
def qmul {K : Type} [CommRing K] (a b : Quat K) : Quat K where
  w := a.w * b.w - a.x * b.x - a.y * b.y - a.z * b.z
  x := a.x * b.w + a.w * b.x + a.y * b.z - a.z * b.y
  y := a.y * b.w + a.w * b.y + a.z * b.x - a.x * b.z
  z := a.z * b.w + a.w * b.z + a.x * b.y - a.y * b.x

/-- `THREE.Quaternion.invert()`: the conjugate (unit length assumed). -/
def qconj {K : Type} [Ring K] (a : Quat K) : Quat K :=
  ⟨a.w, -a.x, -a.y, -a.z⟩

/-- Negation of all four components (`-q`, the antipodal representative). -/
def qneg {K : Type} [Ring K] (a : Quat K) : Quat K :=
  ⟨-a.w, -a.x, -a.y, -a.z⟩

/-- Generic `THREE.MathUtils.clamp`. -/
def clampK {K : Type} [LinearOrder K] (value lo hi : K) : K :=
  max lo (min hi value)

/-- `THREE.Quaternion.normalize()` with the scalar square root supplied:
identity when the computed length is zero, else divide by it. -/
def qnormalize {K : Type} [LinearOrderedField K] (sqrt : K → K) (q : Quat K) :
    Quat K :=
  let l := sqrt (q.w * q.w + q.x * q.x + q.y * q.y + q.z * q.z)
  if l = 0 then ⟨1, 0, 0, 0⟩
  else ⟨q.w / l, q.x / l, q.y / l, q.z / l⟩

/-- The relative quaternion `target * current^-1` of `computePoseError`
(source line 792). -/
def relQuat {K : Type} [CommRing K] (targetQ curQ : Quat K) : Quat K :=
  qmul targetQ (qconj curQ)

/-- The shortest-arc sign fix (source lines 793-798): negate all components
when the scalar part is negative (strictly). -/
def shortestArc {K : Type} [LinearOrderedField K] (q : Quat K) : Quat K :=
  if q.w < 0 then qneg q else q

/-- The axis-angle rotational error of `computePoseError`
(source lines 799-809): `angle = 2 * acos(clamp(w, -1, 1))`, zero vector for
`angle < 1e-5`, else `axis * angle` with `axis = (x, y, z) / sqrt(1 - w^2)`. -/
def rotErrOf {K : Type} [LinearOrderedField K] (sqrt acos : K → K)
    (rel : Quat K) : V3 K :=
  let angle := 2 * acos (clampK rel.w (-1) 1)
  if angle < 1/100000 then ⟨0, 0, 0⟩
  else
    let denom := sqrt (1 - rel.w * rel.w)
    angle • (⟨rel.x / denom, rel.y / denom, rel.z / denom⟩ : V3 K)

/-- `computePoseError` (source lines 785-812): translational error, rotational
error, and the combined scalar `‖t‖ + ‖r‖`. -/
def computePoseError {K : Type} [LinearOrderedField K] (sqrt acos : K → K)
    (targetPos curPos : V3 K) (targetQ curQ : Quat K) : V3 K × V3 K × K :=
  let transErr := targetPos - curPos
  let rotErr := rotErrOf sqrt acos (shortestArc (relQuat targetQ curQ))
  (transErr, rotErr, v3len sqrt transErr + v3len sqrt rotErr)

/-- `computeOrientationDelta` (source lines 1444-1459): shortest-arc relative
quaternion, then `axis * 2 * atan2(sinHalf, w)`, zero for `sinHalf < 1e-9`. -/
def computeOrientationDelta {K : Type} [LinearOrderedField K]
    (sqrt : K → K) (atan2 : K → K → K) (baseQuat targetQuat : Quat K) : V3 K :=
  let rel := shortestArc (relQuat targetQuat baseQuat)
  let sinHalf := sqrt (rel.x * rel.x + rel.y * rel.y + rel.z * rel.z)
  if sinHalf < 1/1000000000 then ⟨0, 0, 0⟩
  else
    let angle := 2 * atan2 sinHalf rel.w
    angle • (⟨rel.x / sinHalf, rel.y / sinHalf, rel.z / sinHalf⟩ : V3 K)

/-! ## Model tables and name resolution (constructor path)

`model.names` plus the per-kind address tables are embedded directly as
lists of decoded names (`decodeName`/`findIdByName`, source lines 431-445,
walk the byte buffer to produce exactly these strings).  Counts (`nbody`,
`njnt`, `nu`) are the lengths of the name lists.  Flat numeric tables
(`jnt_range`, `actuator_ctrlrange`) stay flat, since the source indexes and
length-checks them flat.  JavaScript `Map` objects are embedded as
association lists with JavaScript `Map.set` semantics (`mset`): replace in
place if the key exists, else append, so iteration order is insertion
order and `lookup` of the first occurrence agrees with `Map.get`. -/

/-- MuJoCo joint type enum values used by the source:
`mjJNT_SLIDE = 2`, `mjJNT_HINGE = 3`. -/
def mjJNT_SLIDE : Nat := 2

/-- See `mjJNT_SLIDE`. -/
def mjJNT_HINGE : Nat := 3

/-- `mjTRN_JOINT = 0` (declared at source line 269; only used in logging). -/
def mjTRN_JOINT : Nat := 0

/-- The model tables the controller reads. -/
structure MjModel where
  bodyNames : List String
  jointNames : List String
  jnt_type : List Nat
  jnt_qposadr : List Nat
  jnt_range : Option (List ℚ)
  actuatorNames : List String
  actuator_ctrlrange : Option (List ℚ)
  body_mocapid : Option (List Int)

/-- JavaScript `Map.prototype.set` on an association list. -/
def mset {α β : Type} [DecidableEq α] (m : List (α × β)) (k : α) (v : β) :
    List (α × β) :=
  if m.any (fun p => p.1 = k) then
    m.map (fun p => if p.1 = k then (k, v) else p)
  else m ++ [(k, v)]

/-- JavaScript `Map.prototype.get` on an association list (`none` =
`undefined`). -/
def mget {α β : Type} [DecidableEq α] (m : List (α × β)) (k : α) : Option β :=
  (m.find? (fun p => p.1 = k)).map (·.2)

/-- `findIdByName` (source lines 431-439): index of the first name equal to
`targetName`, `none` embedding the source's `-1`. -/
def findIdByName (targetName : String) (names : List String) : Option Nat :=
  names.findIdx? (· = targetName)

/-- `resolveEndEffectorBodyId` (source lines 178-206): throws when no name is
configured (JavaScript falsy: absent or empty) or the name is not a body. -/
def resolveEndEffectorBodyId (m : MjModel) (requestedName : Option String) :
    Except String Nat :=
  match requestedName with
  | none => .error "No end effector body name provided in config."
  | some n =>
      if n = "" then .error "No end effector body name provided in config."
      else
        match findIdByName n m.bodyNames with
        | none => .error "Required end effector body not found in model."
        | some bodyId => .ok bodyId

/-- `resolveJointDofs` (source lines 208-249): resolve each configured joint
name; skip silently when the name is unknown or the joint is not
hinge/slide; collect `jnt_qposadr[jointId]`. -/
def resolveJointDofs (m : MjModel) (names : List String) : List Nat :=
  names.filterMap (fun name =>
    match findIdByName name m.jointNames with
    | none => none
    | some jointId =>
        let ty := m.jnt_type.getD jointId 0
        if ty = mjJNT_HINGE ∨ ty = mjJNT_SLIDE then
          some (m.jnt_qposadr.getD jointId 0)
        else none)

/-- `buildQposToJointIdMap` (source lines 251-260).  The source's
`addr >= 0` guard is vacuous for `Nat` addresses. -/
def buildQposToJointIdMap (m : MjModel) : List (Nat × Nat) :=
  (List.range m.jointNames.length).foldl
    (fun acc j => mset acc (m.jnt_qposadr.getD j 0) j) []

/-- `jointNameToQposAddr` of `buildQposToActuatorMap` (source lines 277-286). -/
def jointNameToQposAddr (m : MjModel) : List (String × Nat) :=
  (List.range m.jointNames.length).foldl
    (fun acc j => mset acc (m.jointNames.getD j "") (m.jnt_qposadr.getD j 0)) []

/-- `actuatorNameToIndex` (source lines 309-313). -/
def actuatorNameToIndex (m : MjModel) : List (String × Nat) :=
  (List.range m.actuatorNames.length).foldl
    (fun acc a => mset acc (m.actuatorNames.getD a "") a) []

/-- `findActuatorIdx` (source lines 315-327): exact name, then
`"franka/" ++ name`, then the first actuator whose name ends with
`"/" ++ name` or with `name`. -/
def findActuatorIdx (m : MjModel) (jointName : String) : Option Nat :=
  let tbl := actuatorNameToIndex m
  match mget tbl jointName with
  | some idx => some idx
  | none =>
      match mget tbl ("franka/" ++ jointName) with
      | some idx => some idx
      | none =>
          (tbl.find? (fun p =>
            p.1.endsWith ("/" ++ jointName) || p.1.endsWith jointName)).map (·.2)

/-- The map-building loop of `buildQposToActuatorMap` (source lines 330-352):
for each configured joint name, skip when the joint or its actuator is
unresolvable, else set `qposAddr -> actuatorIdx` (overriding). -/
def actuatorMapOf (m : MjModel) (cfgJointNames : List String) : List (Nat × Nat) :=
  cfgJointNames.foldl
    (fun acc jointName =>
      match mget (jointNameToQposAddr m) jointName with
      | none => acc
      | some qposAddr =>
          match findActuatorIdx m jointName with
          | none => acc
          | some actuatorIdx => mset acc qposAddr actuatorIdx)
    []

/-- Controlled DOFs whose qpos address the actuator map misses
(source lines 387-401). -/
def missingActuators (amap : List (Nat × Nat)) (controlledDofs : List Nat) :
    List Nat :=
  controlledDofs.filter (fun addr => (mget amap addr).isNone)

/-- `buildQposToActuatorMap` (source lines 262-429): build the map, then
throw when any controlled DOF is left without an actuator
(source lines 403-425). -/
def buildQposToActuatorMap (m : MjModel) (cfgJointNames : List String)
    (controlledDofs : List Nat) : Except String (List (Nat × Nat)) :=
  let amap := actuatorMapOf m cfgJointNames
  if missingActuators amap controlledDofs = [] then .ok amap
  else .error "Missing actuators for controlled joints. Cannot proceed without actuators."

/-! ## Controller, dynamic state, environment -/

/-- The static data a constructed `IKController` instance holds. -/
structure Controller where
  cfg : Config
  endEffectorBodyId : Nat
  mocapId : Int
  controlledDofs : List Nat
  qposToJointIdMap : List (Nat × Nat)
  qposToActuatorMap : List (Nat × Nat)

/-- The mutable data the controller reads and writes: the shared MuJoCo
buffers (`qpos`, `ctrl`, the end-effector slice of `xpos`/`xquat`, the
mocap slots) and the instance fields of `IKController`. -/
structure IKState where
  qpos : List ℚ
  ctrl : List ℚ
  eePos : V3 ℚ
  eeQuat : Quat ℚ
  mocapPos : V3 ℚ
  mocapQuat : Quat ℚ
  targetPosition : V3 ℚ
  targetQuaternion : Quat ℚ
  currentPos : V3 ℚ
  currentQuat : Quat ℚ
  translationError : V3 ℚ
  rotationError : V3 ℚ
  targetInitialized : Bool
  targetDirty : Bool
  holdOrientation : Bool
  lockedOrientationActive : Bool
  lockedQuaternion : Quat ℚ
  stallCount : Nat
  lastSolveError : Option ℚ
  lmLambda : ℚ
  jtFallbackCount : Nat
deriving DecidableEq

/-- The host black boxes: forward kinematics for the end-effector body
(`mj_forward` followed by `getPosition`/`getQuaternion`), the
`Math.sqrt`/`Math.acos`/`Math.atan2` library functions as computed by the
host, and the THREE-to-MuJoCo frame conversions `toMujocoPos`/`toMujocoQuat`
(defined in `mujocoUtils.js`, outside this repository snapshot). -/
structure Env where
  fkPos : List ℚ → V3 ℚ
  fkQuat : List ℚ → Quat ℚ
  sqrt : ℚ → ℚ
  acos : ℚ → ℚ
  atan2 : ℚ → ℚ → ℚ
  toMjPos : V3 ℚ → V3 ℚ
  toMjQuat : Quat ℚ → Quat ℚ

/-- `mj_forward(model, data)` as the controller observes it: refresh the
end-effector world pose from the current `qpos`. -/
def mjForward (env : Env) (st : IKState) : IKState :=
  { st with eePos := env.fkPos st.qpos, eeQuat := env.fkQuat st.qpos }

/-- `syncCtrlFromQpos` (source lines 447-482): copy each controlled DOF's
measured position into its actuator's ctrl slot, silently skipping invalid
bindings. -/
def syncCtrlFromQpos (c : Controller) (qpos ctrl : List ℚ) : List ℚ :=
  c.controlledDofs.foldl
    (fun acc addr =>
      match mget c.qposToActuatorMap addr with
      | none => acc
      | some actuatorIdx =>
          if actuatorIdx < acc.length then
            acc.set actuatorIdx (qpos.getD addr 0)
          else acc)
    ctrl

/-- `syncTargetsFromModel` (source lines 484-539): copy the end-effector pose
read from the (possibly stale) `data.xpos`/`data.xquat` into the target,
mark initialized and clean. -/
def syncTargetsFromModel (st : IKState) : IKState :=
  { st with
    targetPosition := st.eePos
    targetQuaternion := st.eeQuat
    targetInitialized := true
    targetDirty := false }

/-- The `IKController` constructor (source lines 117-176): resolve the
end-effector body (fatal on failure), resolve the controlled DOFs
(non-fatal skips), build the joint-id and actuator maps (fatal when a
controlled DOF has no actuator), then sync ctrl from qpos and the targets
from the model.  `qpos0`/`ctrl0`/`eePos0`/`eeQuat0` are the shared buffers
at construction time. -/
def construct (m : MjModel) (cfg : Config) (qpos0 ctrl0 : List ℚ)
    (eePos0 : V3 ℚ) (eeQuat0 : Quat ℚ) : Except String (Controller × IKState) := do
  let eeId ← resolveEndEffectorBodyId m cfg.endEffectorBodyName
  let mocapId : Int :=
    match m.body_mocapid with
    | none => -1
    | some l => l.getD eeId (-1)
  let dofs := resolveJointDofs m cfg.jointNames
  let jmap := buildQposToJointIdMap m
  let amap ← buildQposToActuatorMap m cfg.jointNames dofs
  let c : Controller :=
    { cfg := cfg, endEffectorBodyId := eeId, mocapId := mocapId,
      controlledDofs := dofs, qposToJointIdMap := jmap, qposToActuatorMap := amap }
  let ctrl1 := syncCtrlFromQpos c qpos0 ctrl0
  let st0 : IKState :=
    { qpos := qpos0, ctrl := ctrl1, eePos := eePos0, eeQuat := eeQuat0
      mocapPos := ⟨0, 0, 0⟩, mocapQuat := ⟨1, 0, 0, 0⟩
      targetPosition := ⟨0, 0, 0⟩, targetQuaternion := ⟨1, 0, 0, 0⟩
      currentPos := ⟨0, 0, 0⟩, currentQuat := ⟨1, 0, 0, 0⟩
      translationError := ⟨0, 0, 0⟩, rotationError := ⟨0, 0, 0⟩
      targetInitialized := false, targetDirty := false
      holdOrientation := true, lockedOrientationActive := false
      lockedQuaternion := ⟨1, 0, 0, 0⟩
      stallCount := 0, lastSolveError := none
      lmLambda := cfg.lambdaInitial, jtFallbackCount := 0 }
  return (c, syncTargetsFromModel st0)

/-! ## Solve-loop machinery -/

/-- The per-DOF joint limit pair as the solver reads it: `some (lo, hi)`
exactly when the qpos address is in the joint-id map, `model.jnt_range`
exists and is long enough (the guards repeated at source lines 826-832,
934-953, 987-997, 1083-1090, 1126-1131, 1379-1384); the further `hi > lo`
tests stay at each call site, matching the source. -/
def jointRangeOf (m : MjModel) (c : Controller) (addr : Nat) : Option (ℚ × ℚ) :=
  match mget c.qposToJointIdMap addr, m.jnt_range with
  | some jointId, some r =>
      if (jointId + 1) * 2 ≤ r.length then
        some (r.getD (2 * jointId) 0, r.getD (2 * jointId + 1) 0)
      else none
  | _, _ => none

/-- The actuator ctrlrange pair (source lines 1368-1376): present exactly
when `model.actuator_ctrlrange` exists and is long enough. -/
def ctrlRangeOf (m : MjModel) (actuatorIdx : Nat) : Option (ℚ × ℚ) :=
  match m.actuator_ctrlrange with
  | none => none
  | some r =>
      if (actuatorIdx + 1) * 2 ≤ r.length then
        some (r.getD (2 * actuatorIdx) 0, r.getD (2 * actuatorIdx + 1) 0)
      else none

/-- `isAnyJointNearLimit` (source lines 819-844): true when some controlled
DOF with a usable range sits within `span * smartSelectionMarginFraction`
of either limit. -/
def isAnyJointNearLimit (cfg : Config) (c : Controller) (m : MjModel)
    (qpos : List ℚ) : Bool :=
  c.controlledDofs.any (fun addr =>
    match jointRangeOf m c addr with
    | none => false
    | some (lo, hi) =>
        if lo < hi then
          let q := qpos.getD addr 0
          let margin := (hi - lo) * cfg.smartSelectionMarginFraction
          decide (q ≤ lo + margin ∨ hi - margin ≤ q)
        else false)

/-- The 6-component weighted error vector of the fallback step
(source lines 916-927): gains applied when `jtFallbackUseGain`. -/
def jtErrorVec (cfg : Config) (transErr rotErr : V3 ℚ) : List ℚ :=
  let tGain := if cfg.jtFallbackUseGain then cfg.translationGain else 1
  let rGain := if cfg.jtFallbackUseGain then cfg.rotationGain else 1
  [transErr.x * tGain, transErr.y * tGain, transErr.z * tGain,
   rotErr.x * rGain, rotErr.y * rGain, rotErr.z * rGain]

/-- One raw `Jᵗ · error` component (source lines 976-982 and 893-897):
column `col` of the row-major 6 x dofCount jacobian dotted with the error
vector. -/
def jtRawComponent (jac errorVec : List ℚ) (dofCount col : Nat) : ℚ :=
  (List.range 6).foldl
    (fun acc r => acc + jac.getD (r * dofCount + col) 0 * errorVec.getD r 0) 0

/-- `computeJacobianTransposeFallbackStep` (source lines 911-1026), in the
source's three passes: the raw `Jᵗ·(weighted error)` step (lines 976-982);
the limit attenuation — the directional factor of lines 999-1008 followed
by the `jointMargins[k]` multiplication of line 1013; and the
damping-scale-and-clamp pass (lines 1019-1023).  Each pass writes `step[k]`
from `step[k]` and per-`k` data only, so the passes are per-index maps;
`jtFallbackStep_getD` below shows the composition per index is
`jtComponent`. -/
def computeJacobianTransposeFallbackStep (cfg : Config) (c : Controller)
    (m : MjModel) (qpos : List ℚ) (transErr rotErr : V3 ℚ) (jac : List ℚ) :
    List ℚ :=
  let dofCount := c.controlledDofs.length
  let errorVec := jtErrorVec cfg transErr rotErr
  let step0 := (List.range dofCount).map (jtRawComponent jac errorVec dofCount)
  let step1 := (List.range dofCount).map (fun k =>
    let addr := c.controlledDofs.getD k 0
    dirAttenuate cfg (jointRangeOf m c addr) (qpos.getD addr 0)
        (step0.getD k 0)
      * symFactor cfg (jointRangeOf m c addr) (qpos.getD addr 0))
  step1.map (fun s =>
    clampQ (s * cfg.jtFallbackDampingScale) (-cfg.stepLimit) cfg.stepLimit)

/-- `solveLinearSystem` (source lines 1269-1324): Gauss-Jordan elimination
with partial pivoting on the augmented matrix; returns the zero vector when
the chosen pivot magnitude is below `1e-12`. -/
def solveLinearSystem (A b : List ℚ) (n : Nat) : List ℚ := Id.run do
  let mut M : Array ℚ := Array.mkArray (n * (n + 1)) 0
  for r in List.range n do
    for c in List.range n do
      M := M.setD (r * (n + 1) + c) (A.getD (r * n + c) 0)
    M := M.setD (r * (n + 1) + n) (b.getD r 0)
  for col in List.range n do
    let mut pivotRow := col
    let mut pivotVal := |M.getD (pivotRow * (n + 1) + col) 0|
    for r in List.range n do
      if col + 1 ≤ r then
        let v := |M.getD (r * (n + 1) + col) 0|
        if pivotVal < v then
          pivotVal := v
          pivotRow := r
    if pivotVal < 1 / 1000000000000 then
      return List.replicate n 0
    if pivotRow ≠ col then
      for c in List.range (n + 1) do
        if col ≤ c then
          let tmp := M.getD (col * (n + 1) + c) 0
          M := M.setD (col * (n + 1) + c) (M.getD (pivotRow * (n + 1) + c) 0)
          M := M.setD (pivotRow * (n + 1) + c) tmp
    let pivot := M.getD (col * (n + 1) + col) 0
    for c in List.range (n + 1) do
      if col ≤ c then
        M := M.setD (col * (n + 1) + c) (M.getD (col * (n + 1) + c) 0 / pivot)
    for r in List.range n do
      if r ≠ col then
        let factor := M.getD (r * (n + 1) + col) 0
        if ¬ (|factor| < 1 / 1000000000000) then
          for c in List.range (n + 1) do
            if col ≤ c then
              M := M.setD (r * (n + 1) + c)
                (M.getD (r * (n + 1) + c) 0 - factor * M.getD (col * (n + 1) + c) 0)
  return (List.range n).map (fun r => M.getD (r * (n + 1) + n) 0)

/-- The 6-component pose residual `e` with gains (source lines 1042-1049). -/
def lmResidual (cfg : Config) (transErr rotErr : V3 ℚ) : List ℚ :=
  [transErr.x * cfg.translationGain, transErr.y * cfg.translationGain,
   transErr.z * cfg.translationGain, rotErr.x * cfg.rotationGain,
   rotErr.y * cfg.rotationGain, rotErr.z * cfg.rotationGain]

/-- The 6 pose-residual weights (source lines 1051-1056): position weight,
then the held or free orientation weight. -/
def lmWeights (cfg : Config) (holdOrientation : Bool) : List ℚ :=
  let wOri := if cfg.holdOrientationOnTranslate ∧ holdOrientation then
    cfg.holdOriWeight else cfg.oriWeight
  [cfg.posWeight, cfg.posWeight, cfg.posWeight, wOri, wOri, wOri]

/-- `H = Jᵗ W J` flat row-major (source lines 1059-1076). -/
def lmNormalH (jac w : List ℚ) (dofCount : Nat) : List ℚ :=
  (List.range (dofCount * dofCount)).map (fun idx =>
    let i := idx / dofCount
    let j := idx % dofCount
    (List.range 6).foldl
      (fun acc r =>
        acc + jac.getD (r * dofCount + i) 0
          * (w.getD r 0 * jac.getD (r * dofCount + j) 0)) 0)

/-- `g = Jᵗ W e` (source lines 1062-1067). -/
def lmNormalG (jac w e : List ℚ) (dofCount : Nat) : List ℚ :=
  (List.range dofCount).map (fun i =>
    (List.range 6).foldl
      (fun acc r =>
        acc + jac.getD (r * dofCount + i) 0 * (w.getD r 0 * e.getD r 0)) 0)

/-- The linear limit-barrier residual and derivative at one DOF
(source lines 1092-1106): `(innerLo - q)/margin` below the inner margin,
`(q - innerHi)/margin` above it, zero inside. -/
def limitResidualDeriv (cfg : Config) (lo hi q : ℚ) : ℚ × ℚ :=
  let span := hi - lo
  let margin := max (1/1000000) (span * cfg.limitMarginFraction)
  let innerLo := lo + margin
  let innerHi := hi - margin
  if q < innerLo then ((innerLo - q) / margin, -1 / margin)
  else if innerHi < q then ((q - innerHi) / margin, 1 / margin)
  else (0, 0)

/-- The joint-limit contributions added to the diagonal of `H` and to `g`
(source lines 1079-1117), returned as the updated pair `(H, g)`. -/
def lmAddLimitCost (cfg : Config) (c : Controller) (m : MjModel)
    (qpos H g : List ℚ) (dofCount : Nat) : List ℚ × List ℚ :=
  if 0 < cfg.limitWeight ∧ 0 < cfg.limitMarginFraction then
    (List.range dofCount).foldl
      (fun acc k =>
        let addr := c.controlledDofs.getD k 0
        match jointRangeOf m c addr with
        | none => acc
        | some (lo, hi) =>
            if lo < hi then
              let q := qpos.getD addr 0
              let rd := limitResidualDeriv cfg lo hi q
              if rd.1 ≠ 0 ∧ rd.2 ≠ 0 then
                (acc.1.set (k * dofCount + k)
                    (acc.1.getD (k * dofCount + k) 0 + cfg.limitWeight * (rd.2 * rd.2)),
                 acc.2.set k (acc.2.getD k 0 + cfg.limitWeight * (rd.2 * rd.1)))
              else acc
            else acc)
      (H, g)
  else (H, g)

/-- `jointLimitPenalty(qposLike)` (source lines 1119-1145). -/
def jointLimitPenalty (cfg : Config) (c : Controller) (m : MjModel)
    (qposLike : List ℚ) : ℚ :=
  if 0 < cfg.limitWeight ∧ 0 < cfg.limitMarginFraction then
    match m.jnt_range with
    | none => 0
    | some _ =>
        (List.range c.controlledDofs.length).foldl
          (fun acc k =>
            let addr := c.controlledDofs.getD k 0
            match jointRangeOf m c addr with
            | none => acc
            | some (lo, hi) =>
                if lo < hi then
                  let rd := limitResidualDeriv cfg lo hi (qposLike.getD addr 0)
                  acc + cfg.limitWeight * rd.1 * rd.1
                else acc)
          0
  else 0

/-- A weighted squared cost `Σ w_r e_r^2` over the 6 residual components. -/
def weightedSq (w e : List ℚ) : ℚ :=
  (List.range 6).foldl (fun acc r => acc + w.getD r 0 * e.getD r 0 * e.getD r 0) 0

/-- The candidate configuration of one LM trial (source lines 1202-1206):
current `qpos` with each controlled DOF incremented by its step component. -/
def lmCandidate (c : Controller) (qpos step : List ℚ) : List ℚ :=
  ((List.range c.controlledDofs.length).foldl
    (fun acc i =>
      let addr := c.controlledDofs.getD i 0
      acc.set addr (acc.getD addr 0 + step.getD i 0))
    qpos)

/-- The proportionally scaled trial step (source lines 1177-1188): scale so
the largest magnitude component respects `stepLimit`. -/
def lmScaledStep (cfg : Config) (delta : List ℚ) : List ℚ :=
  let maxAbsDelta := delta.foldl (fun acc d => max acc |d|) 0
  let scaleFactor := if cfg.stepLimit < maxAbsDelta then cfg.stepLimit / maxAbsDelta else 1
  delta.map (· * scaleFactor)

/-- The linearly predicted pose cost of a trial step
(source lines 1190-1199): `Σ w_r (e_r - (JΔ)_r)^2`. -/
def lmPredictedPoseCost (jac w e step : List ℚ) (dofCount : Nat) : ℚ :=
  (List.range 6).foldl
    (fun acc r =>
      let jstep := (List.range dofCount).foldl
        (fun a cc => a + jac.getD (r * dofCount + cc) 0 * step.getD cc 0) 0
      let ep := e.getD r 0 - jstep
      acc + w.getD r 0 * ep * ep) 0

/-- The re-evaluated ("true") pose cost at a candidate configuration
(source lines 1209-1243): forward kinematics at the candidate, pose residual
against the current targets, weighted square. -/
def lmProposedPoseCost (env : Env) (cfg : Config) (st : IKState)
    (w candidate : List ℚ) : ℚ :=
  let p := env.fkPos candidate
  let qq := env.fkQuat candidate
  let te := st.targetPosition - p
  let rel := shortestArc (relQuat st.targetQuaternion qq)
  let rotE := rotErrOf env.sqrt env.acos rel
  weightedSq w (lmResidual cfg te rotE)

/-- The full proposed cost of one LM trial (source line 1243). -/
def lmProposedCost (env : Env) (cfg : Config) (c : Controller) (m : MjModel)
    (st : IKState) (w candidate : List ℚ) : ℚ :=
  lmProposedPoseCost env cfg st w candidate + jointLimitPenalty cfg c m candidate

/-- The LM trial loop (source lines 1164-1266): per trial add `λI`, solve,
scale, evaluate predicted and true costs, accept when the true cost drops
and the quality ratio passes (or the predicted change is tiny); on accept
shrink `λ` and return the step, on reject grow `λ` and retry; `none` after
the last trial. -/
def lmTrialLoop (env : Env) (cfg : Config) (c : Controller) (m : MjModel)
    (st : IKState) (jac w e H g : List ℚ) (dofCount : Nat) (currentCost : ℚ) :
    Nat → ℚ → Option (List ℚ) × ℚ
  | 0, lambda => (none, lambda)
  | fuel + 1, lambda =>
      let Htrial := (List.range (dofCount * dofCount)).map (fun idx =>
        if idx / dofCount = idx % dofCount then H.getD idx 0 + lambda
        else H.getD idx 0)
      let delta := solveLinearSystem Htrial g dofCount
      let step := lmScaledStep cfg delta
      let predictedCost := lmPredictedPoseCost jac w e step dofCount
        + jointLimitPenalty cfg c m (lmCandidate c st.qpos step)
      let proposedCost := lmProposedCost env cfg c m st w (lmCandidate c st.qpos step)
      let denom := predictedCost - currentCost
      let denomTiny := |denom| < 1 / 1000000000000
      let rho := if denomTiny then 0 else (proposedCost - currentCost) / denom
      let accept := proposedCost < currentCost ∧ (denomTiny ∨ cfg.stepQualityMin ≤ rho)
      if accept then (some step, max cfg.lambdaMin (lambda / cfg.lambdaFactor))
      else lmTrialLoop env cfg c m st jac w e H g dofCount currentCost fuel
        (min cfg.lambdaMax (lambda * cfg.lambdaFactor))

/-- `computeLevenbergMarquardtStep` (source lines 1028-1267): build the
normal equations with the limit cost, then run the trial loop; returns the
accepted step (or `none`), the final `λ`, and the state after the per-trial
perturb/restore cycles (net effect: `qpos` unchanged, end-effector pose
refreshed when at least one trial ran). -/
def computeLevenbergMarquardtStep (env : Env) (cfg : Config) (c : Controller)
    (m : MjModel) (st : IKState) (jac : List ℚ) :
    Option (List ℚ) × ℚ × IKState :=
  let dofCount := c.controlledDofs.length
  let e := lmResidual cfg st.translationError st.rotationError
  let w := lmWeights cfg st.holdOrientation
  let Hg := lmAddLimitCost cfg c m st.qpos (lmNormalH jac w dofCount)
    (lmNormalG jac w e dofCount) dofCount
  let currentCost := weightedSq w e + jointLimitPenalty cfg c m st.qpos
  let lambda0 := clampQ st.lmLambda cfg.lambdaMin cfg.lambdaMax
  let r := lmTrialLoop env cfg c m st jac w e Hg.1 Hg.2 dofCount currentCost
    cfg.lmMaxTrials lambda0
  let st' := if cfg.lmMaxTrials = 0 then st else mjForward env st
  (r.1, r.2, st')

/-! ## Step application and the update loop -/

/-- The per-DOF loop of `applyJointIncrement` (source lines 1331-1439):
`i` indexes the step vector; an unmapped or out-of-range actuator binding
throws (the source's `actuatorIdx < 0` test is vacuous for `Nat` indices);
otherwise the new command `newCtrlValue` is written to `ctrl[actuatorIdx]`. -/
def applyLoop (cfg : Config) (c : Controller) (m : MjModel)
    (qpos step : List ℚ) : List Nat → Nat → List ℚ → Except String (List ℚ)
  | [], _, ctrl => .ok ctrl
  | addr :: rest, i, ctrl =>
      match mget c.qposToActuatorMap addr with
      | none => .error "No actuator found for joint. Cannot proceed."
      | some actuatorIdx =>
          if ctrl.length ≤ actuatorIdx then
            .error "No actuator found for joint. Cannot proceed."
          else
            let currentQpos := qpos.getD addr 0
            let prevCtrl := ctrl.getD actuatorIdx 0
            let v := newCtrlValue cfg (ctrlRangeOf m actuatorIdx)
              (jointRangeOf m c addr) currentQpos prevCtrl (step.getD i 0)
            applyLoop cfg c m qpos step rest (i + 1) (ctrl.set actuatorIdx v)

/-- `applyJointIncrement` (source lines 1326-1442): `false` for an empty
step (source line 1327), else write every controlled DOF's new command and
return `true`; throws on a missing actuator binding. -/
def applyJointIncrement (cfg : Config) (c : Controller) (m : MjModel)
    (st : IKState) (step : List ℚ) : Except String (IKState × Bool) :=
  if step.isEmpty then .ok (st, false)
  else
    (applyLoop cfg c m st.qpos step c.controlledDofs 0 st.ctrl).map
      (fun ctrl' => ({ st with ctrl := ctrl' }, true))

/-- `_snapTargetToCurrent` (source lines 1483-1500). -/
def snapTargetToCurrent (env : Env) (cfg : Config) (st : IKState) : IKState :=
  let st := { st with
    targetPosition := st.currentPos
    targetQuaternion := qnormalize env.sqrt st.currentQuat }
  let st := if cfg.lockOrientationOnTranslate then
    { st with lockedQuaternion := qnormalize env.sqrt st.currentQuat } else st
  { st with
    lmLambda := cfg.lambdaInitial
    targetDirty := false
    stallCount := 0
    jtFallbackCount := 0 }

/-- `applyMocapTarget` (source lines 1461-1481): write the converted target
pose to the mocap slot and clear the dirty flag. -/
def applyMocapTarget (env : Env) (c : Controller) (st : IKState) : IKState :=
  if c.mocapId < 0 then st
  else
    { st with
      mocapPos := env.toMjPos st.targetPosition
      mocapQuat := env.toMjQuat st.targetQuaternion
      targetDirty := false }

/-- What one solve iteration decided to do with a step (source lines
691-746): apply a computed step (`usedFallback` as in the source, line 697),
or stop the loop after a snap / disabled-fallback bailout. -/
inductive IterAction where
  | apply (step : List ℚ) (usedFallback : Bool)
  | halt
deriving DecidableEq

/-- The solver-selection block of one update iteration (source lines
691-746): smart selection near limits, else the LM step, else the
Jacobian-Transpose fallback; each fallback use increments the consecutive
counter and snaps the target when the cap is reached. -/
def chooseStep (env : Env) (cfg : Config) (c : Controller) (m : MjModel)
    (st : IKState) (jac : List ℚ) : IterAction × IKState :=
  let nearLimit := cfg.useSmartSolverSelection
    && isAnyJointNearLimit cfg c m st.qpos
  if nearLimit && cfg.useJacobianTransposeFallback then
    let step := computeJacobianTransposeFallbackStep cfg c m st.qpos
      st.translationError st.rotationError jac
    let st := { st with jtFallbackCount := st.jtFallbackCount + 1 }
    if cfg.jtFallbackMaxConsecutive ≤ st.jtFallbackCount then
      (.halt, snapTargetToCurrent env cfg st)
    else (.apply step true, st)
  else
    let r := computeLevenbergMarquardtStep env cfg c m st jac
    let st := { r.2.2 with lmLambda := r.2.1 }
    match r.1 with
    | some step => (.apply step false, { st with jtFallbackCount := 0 })
    | none =>
        if cfg.useJacobianTransposeFallback then
          let step := computeJacobianTransposeFallbackStep cfg c m st.qpos
            st.translationError st.rotationError jac
          let st := { st with jtFallbackCount := st.jtFallbackCount + 1 }
          if cfg.jtFallbackMaxConsecutive ≤ st.jtFallbackCount then
            (.halt, snapTargetToCurrent env cfg st)
          else (.apply step true, st)
        else (.halt, snapTargetToCurrent env cfg st)

/-- `computeNumericalJacobian` (source lines 846-879): save the baseline
`qpos`, then per controlled DOF overwrite `qpos` with the baseline, perturb
that DOF by `eps = 1e-4`, re-run forward kinematics and form the
finite-difference column; finally restore the baseline `qpos` and re-run
forward kinematics.  Returns the row-major 6 x dofCount jacobian and the
state after the restore. -/
def computeNumericalJacobian (env : Env) (c : Controller) (st : IKState) :
    List ℚ × IKState :=
  let eps : ℚ := 1/10000
  let scratch := st.qpos
  let basePos := st.currentPos
  let baseQuat := st.currentQuat
  let acc := c.controlledDofs.foldl
    (fun (acc : List (V3 ℚ × V3 ℚ) × IKState) addr =>
      let q1 := scratch.set addr (scratch.getD addr 0 + eps)
      let st1 := mjForward env { acc.2 with qpos := q1 }
      let posDelta := (1 / eps) • (st1.eePos - basePos)
      let rotDelta := (1 / eps) • computeOrientationDelta env.sqrt env.atan2
        baseQuat st1.eeQuat
      (acc.1 ++ [(posDelta, rotDelta)], st1))
    ([], st)
  let dofCount := c.controlledDofs.length
  let jac := (List.range (6 * dofCount)).map (fun idx =>
    let r := idx / dofCount
    let cc := idx % dofCount
    let col := acc.1.getD cc (⟨0, 0, 0⟩, ⟨0, 0, 0⟩)
    match r with
    | 0 => col.1.x
    | 1 => col.1.y
    | 2 => col.1.z
    | 3 => col.2.x
    | 4 => col.2.y
    | _ => col.2.z)
  (jac, mjForward env { acc.2 with qpos := scratch })

/-- `readCurrentPose` (source lines 754-783): copy the end-effector world
pose into `currentPose`. -/
def readCurrentPose (st : IKState) : IKState :=
  { st with currentPos := st.eePos, currentQuat := st.eeQuat }

/-- `computePoseError` as `update` calls it: store the translational and
rotational errors in the instance fields and return the combined scalar. -/
def computePoseErrorQ (env : Env) (st : IKState) : ℚ × IKState :=
  let r := computePoseError env.sqrt env.acos st.targetPosition st.currentPos
    st.targetQuaternion st.currentQuat
  (r.2.2, { st with translationError := r.1, rotationError := r.2.1 })

/-- The stall bookkeeping of one update iteration (source lines 658-669):
bump or reset the consecutive-stall counter from the error improvement,
then record the error. -/
def iterStall (cfg : Config) (errorMagnitude : ℚ) (st : IKState) : IKState :=
  let st := match st.lastSolveError with
    | none => st
    | some prev =>
        if prev - errorMagnitude < cfg.stallMinImprovement then
          { st with stallCount := st.stallCount + 1 }
        else { st with stallCount := 0 }
  { st with lastSolveError := some errorMagnitude }

/-- The step application tail of one update iteration (source lines
748-750): apply the chosen step, or stop after a halt decision; an
exception from `applyJointIncrement` propagates. -/
def iterTail (cfg : Config) (c : Controller) (m : MjModel)
    (ch : IterAction × IKState) : Except String (Bool × IKState) :=
  match ch.1 with
  | .halt => .ok (false, ch.2)
  | .apply step _ =>
      match applyJointIncrement cfg c m ch.2 step with
      | .error e => .error e
      | .ok r => .ok (r.2, r.1)

/-- The terminal checks and solve portion of one update iteration (source
lines 671-750): stall exit (snap or clear), convergence exit, else
jacobian, step choice and step application. -/
def iterDecide (env : Env) (cfg : Config) (c : Controller) (m : MjModel)
    (errorMagnitude : ℚ) (st : IKState) : Except String (Bool × IKState) :=
  if 0 < cfg.stallMaxIterations ∧ cfg.stallMaxIterations ≤ st.stallCount then
    .ok (false,
      if cfg.snapTargetToCurrentOnStall then snapTargetToCurrent env cfg st
      else { st with targetDirty := false, stallCount := 0 })
  else if errorMagnitude < 1/1000 then
    .ok (false, { st with targetDirty := false, stallCount := 0 })
  else
    let jc := computeNumericalJacobian env c st
    iterTail cfg c m (chooseStep env cfg c m jc.2 jc.1)

/-- One iteration of the solve loop (source lines 648-751): forward
kinematics, pose read, orientation re-lock, error and stall bookkeeping,
then the terminal checks and step application (`iterDecide`).  Returns
`(continue?, state)`. -/
def iterBody (env : Env) (cfg : Config) (c : Controller) (m : MjModel)
    (st : IKState) : Except String (Bool × IKState) :=
  let st := mjForward env st
  let st := readCurrentPose st
  let st := if cfg.lockOrientationOnTranslate ∧ st.holdOrientation
      ∧ st.lockedOrientationActive then
    { st with targetQuaternion := qnormalize env.sqrt st.lockedQuaternion }
  else st
  let em := computePoseErrorQ env st
  iterDecide env cfg c m em.1 (iterStall cfg em.1 em.2)

/-- The bounded iteration loop of `update` (source line 648). -/
def solveLoop (env : Env) (cfg : Config) (c : Controller) (m : MjModel) :
    Nat → IKState → Except String IKState
  | 0, st => .ok st
  | n + 1, st =>
      match iterBody env cfg c m st with
      | .error e => .error e
      | .ok (false, st) => .ok st
      | .ok (true, st) => solveLoop env cfg c m n st

/-- `update(timestampMS, isPaused)` (source lines 616-752).  The timestamp
is only stored for diagnostics (`lastSolveTime`, the warning throttle) and
never branches, so it is omitted here. -/
def update (env : Env) (cfg : Config) (c : Controller) (m : MjModel)
    (st : IKState) (isPaused : Bool) : Except String IKState :=
  let st := if st.targetInitialized then st else syncTargetsFromModel st
  let useMocap := (cfg.mode = "free" ∨ cfg.mode = "auto") ∧ 0 ≤ c.mocapId
  if useMocap then .ok (applyMocapTarget env c st)
  else if c.controlledDofs.isEmpty then .ok st
  else if ¬ st.targetDirty then .ok st
  else
    let iterations := if isPaused then cfg.maxIterations else cfg.runningIterations
    solveLoop env cfg c m iterations st

/-- Repeated `update` calls, as the host issues them (for the idempotence
property); an erroring call leaves the state as it was. -/
def updateIterate (env : Env) (cfg : Config) (c : Controller) (m : MjModel)
    (isPaused : Bool) : Nat → IKState → IKState
  | 0, st => st
  | n + 1, st =>
      match update env cfg c m st isPaused with
      | .error _ => st
      | .ok st' => updateIterate env cfg c m isPaused n st'

/-- The target-position pipeline of `adjustTargetPosition` (source lines
557-594), over ℝ with the real square root (the claim under study is about
exact lead distances): read the current end-effector position, clamp the
pre-existing lead to `maxTargetLead` when it exceeds it (and exceeds the
`1e-6` guard), then add the delta.  `THREE.Vector3.normalize` divides by
`length() || 1`, embedded by the inner zero test.  The orientation-lock
lines of the source (581-589) touch only orientation state and are not part
of this position pipeline. -/
noncomputable def adjustTargetPositionPos (maxTargetLead : ℝ)
    (currentPos targetPos delta : V3 ℝ) : V3 ℝ :=
  let currentToTarget := targetPos - currentPos
  let leadDistance := v3len Real.sqrt currentToTarget
  let clamped :=
    if maxTargetLead < leadDistance ∧ 1/1000000 < leadDistance then
      currentPos + maxTargetLead •
        (if leadDistance = 0 then currentToTarget
         else (1 / leadDistance) • currentToTarget)
    else targetPos
  clamped + delta

/-! ## Concrete fixtures for witnesses and counterexamples -/

/-- A minimal model: no tables at all. -/
def mW : MjModel :=
  ⟨[], [], [], [], none, [], none, none⟩

/-- A model whose single actuator has ctrlrange `(0, 1)`. -/
def mRange : MjModel :=
  ⟨[], [], [], [], none, [], some [0, 1], none⟩

/-- A single-joint model: hinge joint "j0" at qpos address 0 with range
`(0, 1)`, actuator "j0" at index 0, body "ee". -/
def mJoint : MjModel :=
  ⟨["world", "ee"], ["j0"], [3], [0], some [0, 1], ["j0"], some [0, 1], none⟩

/-- A configuration naming the end effector and the joint of `mJoint`. -/
def cfgJ : Config :=
  { defConfig with endEffectorBodyName := some "ee", jointNames := ["j0"] }

/-- The default configuration with a zero LM trial cap (so the trial loop
accepts nothing). -/
def cfg0 : Config := { defConfig with lmMaxTrials := 0 }

/-- A controller over one DOF at qpos address 0 bound to actuator 0,
with no joint-range information. -/
def cW : Controller :=
  ⟨defConfig, 0, -1, [0], [], [(0, 0)]⟩

/-- Like `cW` but aware of joint 0 (for range lookups). -/
def cJoint : Controller :=
  ⟨defConfig, 0, -1, [0], [(0, 0)], [(0, 0)]⟩

/-- A baseline dynamic state: one DOF at position 0, one actuator at 0. -/
def stW : IKState where
  qpos := [0]
  ctrl := [0]
  eePos := ⟨0, 0, 0⟩
  eeQuat := ⟨1, 0, 0, 0⟩
  mocapPos := ⟨0, 0, 0⟩
  mocapQuat := ⟨1, 0, 0, 0⟩
  targetPosition := ⟨0, 0, 0⟩
  targetQuaternion := ⟨1, 0, 0, 0⟩
  currentPos := ⟨0, 0, 0⟩
  currentQuat := ⟨1, 0, 0, 0⟩
  translationError := ⟨0, 0, 0⟩
  rotationError := ⟨0, 0, 0⟩
  targetInitialized := true
  targetDirty := false
  holdOrientation := true
  lockedOrientationActive := false
  lockedQuaternion := ⟨1, 0, 0, 0⟩
  stallCount := 0
  lastSolveError := none
  lmLambda := 1/10
  jtFallbackCount := 0

/-- `stW` with the measured position at 2 and the previous command at 1/2
(for the command-range counterexample). -/
def stRange : IKState := { stW with qpos := [2], ctrl := [1/2] }

/-- A trivial environment: constant forward kinematics, zero math kernels.
The properties under study never depend on these values. -/
def envW : Env where
  fkPos := fun _ => ⟨0, 0, 0⟩
  fkQuat := fun _ => ⟨1, 0, 0, 0⟩
  sqrt := fun _ => 0
  acos := fun _ => 0
  atan2 := fun _ _ => 0
  toMjPos := fun v => v
  toMjQuat := fun q => q

/-! ## Shared helper lemmas -/

theorem clampQ_lower (v lo hi : ℚ) : lo ≤ clampQ v lo hi := le_max_left _ _

theorem clampQ_upper (v lo hi : ℚ) (h : lo ≤ hi) : clampQ v lo hi ≤ hi := by
  simp only [clampQ, max_def, min_def]
  split_ifs <;> linarith

theorem antiWindupStage_abs_le (cfg : Config) (q t : ℚ)
    (h : 0 < cfg.maxCtrlOffset) :
    |antiWindupStage cfg q t - q| ≤ cfg.maxCtrlOffset := by
  rw [abs_le]
  simp only [antiWindupStage, if_pos h, clampQ, max_def, min_def]
  split_ifs <;> constructor <;> linarith

theorem newCtrlValue_abs_le (cfg : Config) (cr jr : Option (ℚ × ℚ))
    (q prev s : ℚ) (h : 0 < cfg.maxCtrlOffset) :
    |newCtrlValue cfg cr jr q prev s - q| ≤ cfg.maxCtrlOffset :=
  antiWindupStage_abs_le cfg q _ h

theorem antiWindupStage_mem (cfg : Config) (q t lo hi : ℚ)
    (hql : lo ≤ q) (hqh : q ≤ hi) (htl : lo ≤ t) (hth : t ≤ hi) :
    lo ≤ antiWindupStage cfg q t ∧ antiWindupStage cfg q t ≤ hi := by
  simp only [antiWindupStage]
  split_ifs with hm
  · simp only [clampQ, max_def, min_def]
    split_ifs <;> constructor <;> linarith
  · exact ⟨htl, hth⟩

theorem antiWindupStage_ge_self (cfg : Config) (q t : ℚ) (h : q ≤ t) :
    q ≤ antiWindupStage cfg q t := by
  simp only [antiWindupStage]
  split_ifs with hm
  · simp only [clampQ, max_def, min_def]
    split_ifs <;> linarith
  · exact h

theorem antiWindupStage_le_self (cfg : Config) (q t : ℚ) (h : t ≤ q) :
    antiWindupStage cfg q t ≤ q := by
  simp only [antiWindupStage]
  split_ifs with hm
  · simp only [clampQ, max_def, min_def]
    split_ifs <;> linarith
  · exact h

theorem getD_set_self (l : List ℚ) (a : Nat) (v : ℚ) (h : a < l.length) :
    (l.set a v).getD a 0 = v := by
  simp [List.getD_eq_getElem?_getD, List.getElem?_set, h]

theorem getD_set_ne (l : List ℚ) (a j : Nat) (v : ℚ) (h : ¬ a = j) :
    (l.set a v).getD j 0 = l.getD j 0 := by
  simp [List.getD_eq_getElem?_getD, List.getElem?_set, h]

theorem applyLoop_writes (cfg : Config) (c : Controller) (m : MjModel)
    (qpos step : List ℚ) (h : 0 < cfg.maxCtrlOffset) :
    ∀ (dofs : List Nat) (i : Nat) (ctrl ctrl' : List ℚ),
      applyLoop cfg c m qpos step dofs i ctrl = .ok ctrl' →
      ∀ j : Nat, ctrl'.getD j 0 = ctrl.getD j 0 ∨
        ∃ addr ∈ dofs, |ctrl'.getD j 0 - qpos.getD addr 0| ≤ cfg.maxCtrlOffset := by
  intro dofs
  induction dofs with
  | nil =>
      intro i ctrl ctrl' heq j
      simp only [applyLoop] at heq
      cases heq
      exact Or.inl rfl
  | cons addr rest ih =>
      intro i ctrl ctrl' heq j
      rw [applyLoop] at heq
      split at heq
      · simp at heq
      · next a _ =>
          split_ifs at heq with hlen
          rcases ih (i + 1) _ ctrl' heq j with hsame | ⟨addr', hmem, hbd⟩
          · by_cases hj : a = j
            · subst hj
              rw [hsame, getD_set_self _ _ _ (by omega)]
              refine Or.inr ⟨addr, List.mem_cons_self _ _, ?_⟩
              exact newCtrlValue_abs_le cfg _ _ _ _ _ h
            · left
              rw [hsame, getD_set_ne _ _ _ _ hj]
          · exact Or.inr ⟨addr', List.mem_cons_of_mem _ hmem, hbd⟩

/-- C1 (anti-windup bound): for every call to `applyJointIncrement` with a
positive configured `maxCtrlOffset`, every actuator command value it writes
lies within `maxCtrlOffset` of the measured position `qpos[addr]` of the
controlled DOF that wrote it (entries it does not write are unchanged).
Since the bound is against the measured position at the time of the write
and holds for every previous command value, it holds after arbitrarily many
consecutive solver iterations, including when the measured position stays
constant while targets keep moving. -/
theorem applyJointIncrement_anti_windup (cfg : Config) (c : Controller)
    (m : MjModel) (st : IKState) (step : List ℚ) (r : IKState × Bool)
    (h : 0 < cfg.maxCtrlOffset)
    (heq : applyJointIncrement cfg c m st step = .ok r) :
    ∀ j : Nat, r.1.ctrl.getD j 0 = st.ctrl.getD j 0 ∨
      ∃ addr ∈ c.controlledDofs,
        |r.1.ctrl.getD j 0 - st.qpos.getD addr 0| ≤ cfg.maxCtrlOffset := by
  intro j
  simp only [applyJointIncrement] at heq
  split_ifs at heq with hempty
  · cases heq; exact Or.inl rfl
  · cases hap : applyLoop cfg c m st.qpos step c.controlledDofs 0 st.ctrl with
    | error e => rw [hap] at heq; cases heq
    | ok ctrl' =>
        rw [hap] at heq
        cases heq
        exact applyLoop_writes cfg c m st.qpos step h c.controlledDofs 0 st.ctrl
          ctrl' hap j

/-- Witness for the C1 theorem at a concrete input: one DOF at measured
position 0, previous command 0, step 1; the written command is `1/2`, within
`maxCtrlOffset = 1/2` of the measured position. -/
theorem applyJointIncrement_anti_windup_witness :
    applyJointIncrement defConfig cW mW stW [1] =
      .ok ({ stW with ctrl := [1/2] }, true) ∧
    (({ stW with ctrl := [1/2] } : IKState).ctrl.getD 0 0 = stW.ctrl.getD 0 0 ∨
      ∃ addr ∈ cW.controlledDofs,
        |({ stW with ctrl := [1/2] } : IKState).ctrl.getD 0 0 -
          stW.qpos.getD addr 0| ≤ defConfig.maxCtrlOffset) := by
  have heq : applyJointIncrement defConfig cW mW stW [1] =
      .ok ({ stW with ctrl := [1/2] }, true) := by
    simp only [applyJointIncrement, applyLoop, cW, mW, stW, defConfig, mget,
      ctrlRangeOf, jointRangeOf, newCtrlValue, antiWindupStage,
      jointRangeStage, ctrlRangeStage, clampQ, List.find?, Except.map]
    norm_num [max_def, min_def]
  exact ⟨heq, applyJointIncrement_anti_windup defConfig cW mW stW [1]
    ({ stW with ctrl := [1/2] }, true) (by norm_num [defConfig]) heq 0⟩

/-- C2 counterexample: with an actuator command range `(0, 1)` (its `hi >
lo`), measured position 2, previous command `1/2` and step 0,
`applyJointIncrement` writes the command `3/2`, outside the command range —
the anti-windup clamp around the measured position runs after the
command-range clamp and moves the value back out of it. -/
theorem applyJointIncrement_range_cex :
    applyJointIncrement defConfig cW mRange stRange [0] =
      .ok ({ stRange with ctrl := [3/2] }, true) ∧
    ¬ (((3 : ℚ)/2) ≤ 1) := by
  constructor
  · simp only [applyJointIncrement, applyLoop, cW, mRange, stRange, stW,
      defConfig, mget, ctrlRangeOf, jointRangeOf, newCtrlValue,
      antiWindupStage, jointRangeStage, ctrlRangeStage, clampQ, List.find?,
      Except.map]
    norm_num [max_def, min_def]
  · norm_num

theorem ctrlRangeStage_mem (clo chi t : ℚ) (h : clo < chi) :
    clo ≤ ctrlRangeStage (some (clo, chi)) t ∧
      ctrlRangeStage (some (clo, chi)) t ≤ chi := by
  simp only [ctrlRangeStage, if_pos h]
  exact ⟨clampQ_lower _ _ _, clampQ_upper _ _ _ h.le⟩

theorem jointRangeStage_mem (cfg : Config) (jlo jhi q s t : ℚ) (h : jlo < jhi) :
    jlo ≤ jointRangeStage cfg (some (jlo, jhi)) q s t ∧
      jointRangeStage cfg (some (jlo, jhi)) q s t ≤ jhi := by
  simp only [jointRangeStage, if_pos h]
  exact ⟨clampQ_lower _ _ _, clampQ_upper _ _ _ h.le⟩

theorem le_clampQ_of (v lo hi q : ℚ) (hv : q ≤ v) (hh : q ≤ hi) :
    q ≤ clampQ v lo hi := by
  simp only [clampQ, max_def, min_def]
  split_ifs <;> linarith

theorem clampQ_le_of (v lo hi q : ℚ) (hv : v ≤ q) (hl : lo ≤ q) :
    clampQ v lo hi ≤ q := by
  simp only [clampQ, max_def, min_def]
  split_ifs <;> linarith

theorem safetyStage_ge (cfg : Config) (jlo jhi q s t : ℚ)
    (hu : cfg.useSafetyMargin = true) (hm : 0 < safetyMarginOf cfg jlo jhi)
    (hq : q ≤ jlo + safetyMarginOf cfg jlo jhi) (hs : s < 0) :
    q ≤ safetyStage cfg jlo jhi q s t := by
  simp only [safetyStage]
  rw [if_pos ⟨by simp [hu], hm⟩, if_pos hq, if_pos hs]
  by_cases h2 : jhi - safetyMarginOf cfg jlo jhi ≤ q
  · rw [if_pos h2, if_neg (by linarith : ¬ (0 : ℚ) < s)]
    exact le_max_right _ _
  · rw [if_neg h2]
    by_cases h3 : jhi - safetyMarginOf cfg jlo jhi < max t q
    · rw [if_pos h3]; linarith
    · rw [if_neg h3]; exact le_max_right _ _

theorem safetyStage_le (cfg : Config) (jlo jhi q s t : ℚ)
    (hu : cfg.useSafetyMargin = true) (hm : 0 < safetyMarginOf cfg jlo jhi)
    (hq : jhi - safetyMarginOf cfg jlo jhi ≤ q) (hs : 0 < s) :
    safetyStage cfg jlo jhi q s t ≤ q := by
  simp only [safetyStage]
  rw [if_pos ⟨by simp [hu], hm⟩, if_pos hq, if_pos hs]
  exact min_le_right _ _

theorem safetyStage_away_lower (cfg : Config) (jlo jhi q s t : ℚ)
    (hs : 0 ≤ s) (hq : q ≤ jlo + safetyMarginOf cfg jlo jhi)
    (hq2 : q < jhi - safetyMarginOf cfg jlo jhi)
    (ht : t ≤ jhi - safetyMarginOf cfg jlo jhi) :
    safetyStage cfg jlo jhi q s t = t := by
  simp only [safetyStage]
  by_cases hact : (cfg.useSafetyMargin : Prop) ∧ 0 < safetyMarginOf cfg jlo jhi
  · rw [if_pos hact, if_pos hq, if_neg (by linarith : ¬ s < 0),
      if_neg (by linarith : ¬ jhi - safetyMarginOf cfg jlo jhi ≤ q),
      if_neg (by linarith : ¬ jhi - safetyMarginOf cfg jlo jhi < t)]
  · rw [if_neg hact]

/-- C2 (amended): for any step, (A) the written command stays within the
joint range `[jlo, jhi]` (when `jhi > jlo`) provided the measured position
lies within that range; (B) it stays within the actuator command range
(when its `hi > lo`) provided the measured position lies within the command
range and any active joint range is nested in it; (C) with the safety
margin active, a step moving further into a breached lower (upper) safety
margin never moves the command below (above) the current measured position;
(D) a step moving away from a breached lower margin passes the soft wall
unmodified.  (The unconditional command-range containment the original
claim states is refuted by `applyJointIncrement_range_cex`.) -/
theorem newCtrlValue_containment (cfg : Config) (cr jr : Option (ℚ × ℚ))
    (q prev s : ℚ) :
    (∀ jlo jhi, jr = some (jlo, jhi) → jlo < jhi → jlo ≤ q → q ≤ jhi →
      jlo ≤ newCtrlValue cfg cr jr q prev s ∧
        newCtrlValue cfg cr jr q prev s ≤ jhi) ∧
    (∀ clo chi, cr = some (clo, chi) → clo < chi → clo ≤ q → q ≤ chi →
      (∀ jlo jhi, jr = some (jlo, jhi) → jlo < jhi → clo ≤ jlo ∧ jhi ≤ chi) →
      clo ≤ newCtrlValue cfg cr jr q prev s ∧
        newCtrlValue cfg cr jr q prev s ≤ chi) ∧
    (∀ jlo jhi, jr = some (jlo, jhi) → jlo < jhi →
      cfg.useSafetyMargin = true → 0 < safetyMarginOf cfg jlo jhi →
      q ≤ jlo + safetyMarginOf cfg jlo jhi → s < 0 → q ≤ jhi →
      q ≤ newCtrlValue cfg cr jr q prev s) ∧
    (∀ jlo jhi, jr = some (jlo, jhi) → jlo < jhi →
      cfg.useSafetyMargin = true → 0 < safetyMarginOf cfg jlo jhi →
      jhi - safetyMarginOf cfg jlo jhi ≤ q → 0 < s → jlo ≤ q →
      newCtrlValue cfg cr jr q prev s ≤ q) ∧
    (∀ jlo jhi t, 0 ≤ s → q ≤ jlo + safetyMarginOf cfg jlo jhi →
      q < jhi - safetyMarginOf cfg jlo jhi →
      t ≤ jhi - safetyMarginOf cfg jlo jhi →
      safetyStage cfg jlo jhi q s t = t) := by
  refine ⟨?_, ?_, ?_, ?_, ?_⟩
  · intro jlo jhi hjr hlt hql hqh
    subst hjr
    exact antiWindupStage_mem cfg q _ jlo jhi hql hqh
      (jointRangeStage_mem cfg jlo jhi q s _ hlt).1
      (jointRangeStage_mem cfg jlo jhi q s _ hlt).2
  · intro clo chi hcr hlt hql hqh hsub
    subst hcr
    have hbase := ctrlRangeStage_mem clo chi (prev + s) hlt
    match hjr : jr with
    | none =>
        simp only [newCtrlValue, jointRangeStage]
        exact antiWindupStage_mem cfg q _ clo chi hql hqh hbase.1 hbase.2
    | some (jlo, jhi) =>
        by_cases hjlt : jlo < jhi
        · have hnest := hsub jlo jhi rfl hjlt
          have hmem := jointRangeStage_mem cfg jlo jhi q s
            (ctrlRangeStage (some (clo, chi)) (prev + s)) hjlt
          exact antiWindupStage_mem cfg q _ clo chi hql hqh
            (le_trans hnest.1 hmem.1) (le_trans hmem.2 hnest.2)
        · simp only [newCtrlValue, jointRangeStage, if_neg hjlt]
          exact antiWindupStage_mem cfg q _ clo chi hql hqh hbase.1 hbase.2
  · intro jlo jhi hjr hlt hu hm hq hs hqh
    subst hjr
    simp only [newCtrlValue, jointRangeStage, if_pos hlt]
    exact antiWindupStage_ge_self cfg q _
      (le_clampQ_of _ _ _ _ (safetyStage_ge cfg jlo jhi q s _ hu hm hq hs) hqh)
  · intro jlo jhi hjr hlt hu hm hq hs hql
    subst hjr
    simp only [newCtrlValue, jointRangeStage, if_pos hlt]
    exact antiWindupStage_le_self cfg q _
      (clampQ_le_of _ _ _ _ (safetyStage_le cfg jlo jhi q s _ hu hm hq hs) hql)
  · intro jlo jhi t hs hq hq2 ht
    exact safetyStage_away_lower cfg jlo jhi q s t hs hq hq2 ht

/-- Witness for the C2 amended theorem at concrete inputs: joint range and
command range `(0, 1)`, measured positions inside the range, near the lower
margin (for the soft wall) and near the upper margin. -/
theorem newCtrlValue_containment_witness :
    ((0 : ℚ) ≤ newCtrlValue defConfig none (some (0, 1)) (1/2) (1/2) 0 ∧
      newCtrlValue defConfig none (some (0, 1)) (1/2) (1/2) 0 ≤ 1) ∧
    ((0 : ℚ) ≤ newCtrlValue defConfig (some (0, 1)) none (1/2) (1/2) 0 ∧
      newCtrlValue defConfig (some (0, 1)) none (1/2) (1/2) 0 ≤ 1) ∧
    ((1 : ℚ)/100 ≤ newCtrlValue defConfig none (some (0, 1)) (1/100) (1/2) (-1)) ∧
    (newCtrlValue defConfig none (some (0, 1)) (99/100) (1/2) 1 ≤ 99/100) ∧
    (safetyStage defConfig 0 1 (1/100) 0 (1/2) = 1/2) := by
  refine ⟨?_, ?_, ?_, ?_, ?_⟩
  · exact (newCtrlValue_containment defConfig none (some (0, 1)) (1/2) (1/2) 0).1
      0 1 rfl (by norm_num) (by norm_num) (by norm_num)
  · exact (newCtrlValue_containment defConfig (some (0, 1)) none (1/2) (1/2) 0).2.1
      0 1 rfl (by norm_num) (by norm_num) (by norm_num)
      (fun jlo jhi h => by cases h)
  · exact (newCtrlValue_containment defConfig none (some (0, 1)) (1/100) (1/2)
      (-1)).2.2.1 0 1 rfl (by norm_num) rfl
      (by norm_num [safetyMarginOf, defConfig])
      (by norm_num [safetyMarginOf, defConfig]) (by norm_num) (by norm_num)
  · exact (newCtrlValue_containment defConfig none (some (0, 1)) (99/100) (1/2)
      1).2.2.2.1 0 1 rfl (by norm_num) rfl
      (by norm_num [safetyMarginOf, defConfig])
      (by norm_num [safetyMarginOf, defConfig]) (by norm_num) (by norm_num)
  · exact (newCtrlValue_containment defConfig none (some (0, 1)) (1/100) (1/2)
      0).2.2.2.2 0 1 (1/2) (by norm_num)
      (by norm_num [safetyMarginOf, defConfig])
      (by norm_num [safetyMarginOf, defConfig])
      (by norm_num [safetyMarginOf, defConfig])

/-- C4 counterexample: with joint range `(0, 1)` and the default
configuration, a raw component `1/100` at position `1/100` moves *away*
from the (nearest, lower) limit, yet the produced component is `3/1000` —
attenuated by the symmetric proximity factor `1/5` — and not the full
(damped, clamped) step `3/200`, nor the raw step `1/100`. -/
theorem jtComponent_full_step_cex :
    jtComponent defConfig (some (0, 1)) (1/100) (1/100) = 3/1000 ∧
    ((3 : ℚ)/1000) ≠
      clampQ ((1/100) * defConfig.jtFallbackDampingScale)
        (-defConfig.stepLimit) defConfig.stepLimit ∧
    ((3 : ℚ)/1000) ≠ 1/100 := by
  refine ⟨?_, ?_, by norm_num⟩
  · norm_num [jtComponent, dirAttenuate, symFactor, clampQ, defConfig,
      max_def, min_def]
  · norm_num [clampQ, defConfig, max_def, min_def]

theorem clampQ_abs_le (v L : ℚ) (h : 0 ≤ L) : |clampQ v (-L) L| ≤ L := by
  rw [abs_le]
  simp only [clampQ, max_def, min_def]
  constructor <;> split_ifs <;> linarith

theorem clampQ_zero (L : ℚ) (h : 0 ≤ L) : clampQ 0 (-L) L = 0 := by
  simp only [clampQ, max_def, min_def]
  split_ifs <;> linarith

/-- C4 (amended): in `computeJacobianTransposeFallbackStep` each DOF
component is attenuated by two factors — a directional factor that linearly
attenuates components moving toward a limit inside the doubled margin and
leaves components moving away unchanged, and a symmetric proximity factor
(1 outside the margin, linear to 0 at the limit) applied regardless of
direction — then scaled by the damping factor and clamped to
`[-stepLimit, stepLimit]`.  Hence: (i) every component respects the clamp;
(ii) a component at or beyond a limit is zero even when moving away;
(iii) a component moving away from the nearest limit receives the full
(damped) step only when the DOF is outside the margin; (iv) a component
moving into the doubled lower margin (still outside the symmetric margin)
is linearly attenuated by `(q - lo)/margin`. -/
theorem jtComponent_attenuation (cfg : Config) (lo hi q s : ℚ) :
    (0 ≤ cfg.stepLimit →
      |jtComponent cfg (some (lo, hi)) q s| ≤ cfg.stepLimit) ∧
    (lo < hi → (q ≤ lo ∨ hi ≤ q) → 0 ≤ cfg.stepLimit →
      jtComponent cfg (some (lo, hi)) q s = 0) ∧
    (lo < hi → 0 ≤ s →
      q ≤ hi - max (1/1000000) ((hi - lo) * (cfg.limitMarginFraction * 2)) →
      max (1/1000000) ((hi - lo) * cfg.limitMarginFraction) ≤
        min (q - lo) (hi - q) →
      jtComponent cfg (some (lo, hi)) q s =
        clampQ (s * cfg.jtFallbackDampingScale)
          (-cfg.stepLimit) cfg.stepLimit) ∧
    (lo < hi → s < 0 → lo ≤ q →
      q < lo + max (1/1000000) ((hi - lo) * (cfg.limitMarginFraction * 2)) →
      max (1/1000000) ((hi - lo) * cfg.limitMarginFraction) ≤
        min (q - lo) (hi - q) →
      jtComponent cfg (some (lo, hi)) q s =
        clampQ
          (s * ((q - lo) /
              max (1/1000000) ((hi - lo) * (cfg.limitMarginFraction * 2)))
            * cfg.jtFallbackDampingScale)
          (-cfg.stepLimit) cfg.stepLimit) := by
  refine ⟨?_, ?_, ?_, ?_⟩
  · intro hL
    exact clampQ_abs_le _ _ hL
  · intro hlt hq hL
    have hmd : min (q - lo) (hi - q) ≤ 0 := by
      rcases hq with hq | hq
      · exact le_trans (min_le_left _ _) (by linarith)
      · exact le_trans (min_le_right _ _) (by linarith)
    simp only [jtComponent, symFactor, if_pos hlt, if_pos hmd]
    rw [mul_zero, zero_mul]
    exact clampQ_zero _ hL
  · intro hlt hs hup hmd
    have hm1 : (0 : ℚ) < max (1/1000000) ((hi - lo) * cfg.limitMarginFraction) :=
      lt_of_lt_of_le (by norm_num) (le_max_left _ _)
    have hnd : ¬ min (q - lo) (hi - q) ≤ 0 := by
      intro hc; linarith [le_trans hmd hc]
    have hnd2 : ¬ min (q - lo) (hi - q) <
        max (1/1000000) ((hi - lo) * cfg.limitMarginFraction) := not_lt.mpr hmd
    simp only [jtComponent, symFactor, dirAttenuate, if_pos hlt, if_neg hnd,
      if_neg hnd2]
    rw [if_neg (by rintro ⟨-, hc⟩; linarith),
      if_neg (by rintro ⟨hc, -⟩; linarith), mul_one]
  · intro hlt hs hql hq2 hmd
    have hm2 : (0 : ℚ) <
        max (1/1000000) ((hi - lo) * (cfg.limitMarginFraction * 2)) :=
      lt_of_lt_of_le (by norm_num) (le_max_left _ _)
    have hnd : ¬ min (q - lo) (hi - q) ≤ 0 := by
      intro hc
      have := le_trans hmd hc
      have : (0:ℚ) < max (1/1000000) ((hi - lo) * cfg.limitMarginFraction) :=
        lt_of_lt_of_le (by norm_num) (le_max_left _ _)
      linarith
    have hnd2 : ¬ min (q - lo) (hi - q) <
        max (1/1000000) ((hi - lo) * cfg.limitMarginFraction) := not_lt.mpr hmd
    simp only [jtComponent, symFactor, dirAttenuate, if_pos hlt, if_neg hnd,
      if_neg hnd2]
    rw [if_pos ⟨hq2, hs⟩, mul_one,
      max_eq_right (div_nonneg (by linarith) hm2.le)]

/-- Witness for the C4 amended theorem at concrete inputs over the joint
range `(0, 1)` and the default configuration. -/
theorem jtComponent_attenuation_witness :
    (|jtComponent defConfig (some (0, 1)) (1/2) 1| ≤ defConfig.stepLimit) ∧
    (jtComponent defConfig (some (0, 1)) 0 1 = 0) ∧
    (jtComponent defConfig (some (0, 1)) (1/2) (1/100) =
      clampQ ((1/100) * defConfig.jtFallbackDampingScale)
        (-defConfig.stepLimit) defConfig.stepLimit) ∧
    (jtComponent defConfig (some (0, 1)) (7/100) (-(1/100)) =
      clampQ
        ((-(1/100)) * ((7/100 - 0) /
            max (1/1000000) ((1 - 0) * (defConfig.limitMarginFraction * 2)))
          * defConfig.jtFallbackDampingScale)
        (-defConfig.stepLimit) defConfig.stepLimit) := by
  refine ⟨?_, ?_, ?_, ?_⟩
  · exact (jtComponent_attenuation defConfig 0 1 (1/2) 1).1
      (by norm_num [defConfig])
  · exact (jtComponent_attenuation defConfig 0 1 0 1).2.1 (by norm_num)
      (Or.inl le_rfl) (by norm_num [defConfig])
  · exact (jtComponent_attenuation defConfig 0 1 (1/2) (1/100)).2.2.1
      (by norm_num) (by norm_num) (by norm_num [defConfig, max_def])
      (by norm_num [defConfig, max_def, min_def])
  · exact (jtComponent_attenuation defConfig 0 1 (7/100) (-(1/100))).2.2.2
      (by norm_num) (by norm_num) (by norm_num)
      (by norm_num [defConfig, max_def]) (by norm_num [defConfig, max_def, min_def])

theorem jtFallbackStep_getD (cfg : Config) (c : Controller) (m : MjModel)
    (qpos : List ℚ) (transErr rotErr : V3 ℚ) (jac : List ℚ) (k : Nat)
    (hk : k < c.controlledDofs.length) :
    (computeJacobianTransposeFallbackStep cfg c m qpos transErr rotErr
        jac).getD k 0 =
      jtComponent cfg (jointRangeOf m c (c.controlledDofs.getD k 0))
        (qpos.getD (c.controlledDofs.getD k 0) 0)
        (jtRawComponent jac (jtErrorVec cfg transErr rotErr)
          c.controlledDofs.length k) := by
  simp only [computeJacobianTransposeFallbackStep, jtComponent,
    List.getD_eq_getElem?_getD, List.getElem?_map, List.getElem?_range, hk,
    if_pos, Option.map_some', Option.getD_some]

/-- C3 (scoped perturbation / restore): `computeNumericalJacobian` leaves
the shared generalized-coordinate vector unchanged — the state it returns
carries exactly the entry `qpos`, with forward kinematics re-evaluated at
that restored vector before returning (its single exit path runs the
restore of source lines 874-876).  The per-trial perturbation inside
`computeLevenbergMarquardtStep` (source lines 1210-1247) likewise never
leaks: its returned state carries the entry `qpos` unchanged. -/
theorem computeNumericalJacobian_restores (env : Env) (c : Controller)
    (cfg : Config) (m : MjModel) (st : IKState) (jac : List ℚ) :
    (computeNumericalJacobian env c st).2.qpos = st.qpos ∧
    (computeNumericalJacobian env c st).2.eePos = env.fkPos st.qpos ∧
    (computeNumericalJacobian env c st).2.eeQuat = env.fkQuat st.qpos ∧
    (computeLevenbergMarquardtStep env cfg c m st jac).2.2.qpos = st.qpos := by
  refine ⟨rfl, rfl, rfl, ?_⟩
  simp only [computeLevenbergMarquardtStep, mjForward]
  split <;> rfl

theorem v3_add_def {K : Type} [Add K] (a b : V3 K) :
    a + b = ⟨a.x + b.x, a.y + b.y, a.z + b.z⟩ := rfl

theorem v3_sub_def {K : Type} [Sub K] (a b : V3 K) :
    a - b = ⟨a.x - b.x, a.y - b.y, a.z - b.z⟩ := rfl

theorem v3_neg_def {K : Type} [Neg K] (a : V3 K) :
    -a = ⟨-a.x, -a.y, -a.z⟩ := rfl

theorem v3_smul_def {K : Type} [Mul K] (c : K) (v : V3 K) :
    c • v = ⟨c * v.x, c * v.y, c * v.z⟩ := rfl

theorem qmul_qneg_left {K : Type} [CommRing K] (a b : Quat K) :
    qmul (qneg a) b = qneg (qmul a b) := by
  simp only [qmul, qneg, Quat.mk.injEq]
  refine ⟨by ring, by ring, by ring, by ring⟩

theorem qneg_qneg {K : Type} [CommRing K] (a : Quat K) : qneg (qneg a) = a := by
  simp [qneg]

theorem shortestArc_qneg (q : Quat ℝ) :
    (q.w ≠ 0 → shortestArc (qneg q) = shortestArc q) ∧
    (q.w = 0 → shortestArc (qneg q) = qneg q ∧ shortestArc q = q) := by
  constructor
  · intro hw
    rcases lt_or_gt_of_ne hw with hlt | hgt
    · rw [shortestArc, if_neg (by simp only [qneg]; linarith), shortestArc,
        if_pos hlt]
    · rw [shortestArc, if_pos (by simp only [qneg]; linarith), qneg_qneg,
        shortestArc, if_neg (by linarith)]
  · intro hw
    constructor
    · rw [shortestArc, if_neg (by simp only [qneg, hw]; linarith)]
    · rw [shortestArc, if_neg (by rw [hw]; exact lt_irrefl 0)]

theorem rotErrOf_qneg_of_w_eq_zero (rel : Quat ℝ) (h : rel.w = 0) :
    rotErrOf Real.sqrt Real.arccos rel =
      -(rotErrOf Real.sqrt Real.arccos (qneg rel)) := by
  obtain ⟨w, x, y, z⟩ := rel
  simp only [Quat.w] at h
  subst h
  simp only [rotErrOf, qneg, neg_zero]
  split_ifs
  · simp [v3_neg_def]
  · simp only [v3_smul_def, v3_neg_def, V3.mk.injEq]
    refine ⟨by ring, by ring, by ring⟩

theorem v3len_neg (v : V3 ℝ) :
    v3len Real.sqrt (-v) = v3len Real.sqrt v := by
  obtain ⟨x, y, z⟩ := v
  simp only [v3len, v3_neg_def]
  ring_nf

/-- C7 (amended): feeding target quaternion `q` and `-q` into
`computePoseError` yields the identical translational error and the
identical combined scalar error for every input; the rotational error
vectors are identical whenever the relative quaternion
`target * current⁻¹` has nonzero scalar part, but when that scalar part is
exactly zero (a 180-degree relative rotation) the two rotational error
vectors are negatives of one another (of equal norm). -/
theorem computePoseError_antipodal (tp cp : V3 ℝ) (tq cq : Quat ℝ) :
    (computePoseError Real.sqrt Real.arccos tp cp tq cq).1 =
      (computePoseError Real.sqrt Real.arccos tp cp (qneg tq) cq).1 ∧
    (computePoseError Real.sqrt Real.arccos tp cp tq cq).2.2 =
      (computePoseError Real.sqrt Real.arccos tp cp (qneg tq) cq).2.2 ∧
    ((relQuat tq cq).w ≠ 0 →
      (computePoseError Real.sqrt Real.arccos tp cp tq cq).2.1 =
        (computePoseError Real.sqrt Real.arccos tp cp (qneg tq) cq).2.1) ∧
    ((relQuat tq cq).w = 0 →
      (computePoseError Real.sqrt Real.arccos tp cp tq cq).2.1 =
        -((computePoseError Real.sqrt Real.arccos tp cp (qneg tq) cq).2.1)) := by
  have hrel : relQuat (qneg tq) cq = qneg (relQuat tq cq) :=
    qmul_qneg_left tq (qconj cq)
  have hrotne : ∀ h : (relQuat tq cq).w ≠ 0,
      rotErrOf Real.sqrt Real.arccos (shortestArc (relQuat tq cq)) =
        rotErrOf Real.sqrt Real.arccos (shortestArc (relQuat (qneg tq) cq)) := by
    intro h
    rw [hrel, (shortestArc_qneg (relQuat tq cq)).1 h]
  have hrot0 : ∀ h : (relQuat tq cq).w = 0,
      rotErrOf Real.sqrt Real.arccos (shortestArc (relQuat tq cq)) =
        -(rotErrOf Real.sqrt Real.arccos (shortestArc (relQuat (qneg tq) cq))) := by
    intro h
    obtain ⟨h1, h2⟩ := (shortestArc_qneg (relQuat tq cq)).2 h
    rw [hrel, h1, h2]
    exact rotErrOf_qneg_of_w_eq_zero _ h
  refine ⟨rfl, ?_, ?_, ?_⟩
  · by_cases hw : (relQuat tq cq).w = 0
    · simp only [computePoseError]
      rw [hrot0 hw, v3len_neg]
    · simp only [computePoseError]
      rw [hrotne hw]
  · intro hw
    simp only [computePoseError]
    rw [hrotne hw]
  · intro hw
    simp only [computePoseError]
    rw [hrot0 hw]

theorem rotErrOf_halfturn_x :
    rotErrOf Real.sqrt Real.arccos (⟨0, 1, 0, 0⟩ : Quat ℝ) =
      ⟨Real.pi, 0, 0⟩ := by
  have hc : clampK (0 : ℝ) (-1) 1 = 0 := by
    rw [clampK, max_def, min_def]; norm_num
  have hang : 2 * Real.arccos (clampK (0 : ℝ) (-1) 1) = Real.pi := by
    rw [hc, Real.arccos_zero]; ring
  have hpi : ¬ (2 * Real.arccos (clampK (0 : ℝ) (-1) 1) < 1/100000) := by
    rw [hang]
    intro hcon
    have := Real.two_le_pi
    linarith
  simp only [rotErrOf]
  rw [if_neg hpi, hang]
  norm_num [v3_smul_def, Real.sqrt_one]

theorem rotErrOf_halfturn_negx :
    rotErrOf Real.sqrt Real.arccos (⟨0, -1, 0, 0⟩ : Quat ℝ) =
      ⟨-Real.pi, 0, 0⟩ := by
  have hc : clampK (0 : ℝ) (-1) 1 = 0 := by
    rw [clampK, max_def, min_def]; norm_num
  have hang : 2 * Real.arccos (clampK (0 : ℝ) (-1) 1) = Real.pi := by
    rw [hc, Real.arccos_zero]; ring
  have hpi : ¬ (2 * Real.arccos (clampK (0 : ℝ) (-1) 1) < 1/100000) := by
    rw [hang]
    intro hcon
    have := Real.two_le_pi
    linarith
  simp only [rotErrOf]
  rw [if_neg hpi, hang]
  norm_num [v3_smul_def, Real.sqrt_one]

/-- C7 counterexample: with the current orientation at identity and target
quaternion `q = (w 0, x 1, y 0, z 0)` (a 180-degree rotation), feeding `q`
and `-q` produces rotational error vectors `(pi, 0, 0)` and `(-pi, 0, 0)` —
not numerically identical (the scalar part of the relative quaternion is
exactly zero, which the strict `w < 0` sign fix does not touch). -/
theorem computePoseError_antipodal_cex :
    (computePoseError Real.sqrt Real.arccos ⟨0, 0, 0⟩ ⟨0, 0, 0⟩
        ⟨0, 1, 0, 0⟩ ⟨1, 0, 0, 0⟩).2.1 ≠
    (computePoseError Real.sqrt Real.arccos ⟨0, 0, 0⟩ ⟨0, 0, 0⟩
        (qneg ⟨0, 1, 0, 0⟩) ⟨1, 0, 0, 0⟩).2.1 := by
  have h1 : relQuat (⟨0, 1, 0, 0⟩ : Quat ℝ) ⟨1, 0, 0, 0⟩ = ⟨0, 1, 0, 0⟩ := by
    simp only [relQuat, qmul, qconj, Quat.mk.injEq]
    norm_num
  have h2 : relQuat (qneg (⟨0, 1, 0, 0⟩ : Quat ℝ)) ⟨1, 0, 0, 0⟩ =
      ⟨0, -1, 0, 0⟩ := by
    simp only [relQuat, qmul, qconj, qneg, Quat.mk.injEq]
    norm_num
  have harc1 : shortestArc (⟨0, 1, 0, 0⟩ : Quat ℝ) = ⟨0, 1, 0, 0⟩ := by
    simp [shortestArc]
  have harc2 : shortestArc (⟨0, -1, 0, 0⟩ : Quat ℝ) = ⟨0, -1, 0, 0⟩ := by
    simp [shortestArc]
  have hL : (computePoseError Real.sqrt Real.arccos ⟨0, 0, 0⟩ ⟨0, 0, 0⟩
      (⟨0, 1, 0, 0⟩ : Quat ℝ) ⟨1, 0, 0, 0⟩).2.1 = ⟨Real.pi, 0, 0⟩ := by
    simp only [computePoseError, h1, harc1, rotErrOf_halfturn_x]
  have hR : (computePoseError Real.sqrt Real.arccos ⟨0, 0, 0⟩ ⟨0, 0, 0⟩
      (qneg (⟨0, 1, 0, 0⟩ : Quat ℝ)) ⟨1, 0, 0, 0⟩).2.1 = ⟨-Real.pi, 0, 0⟩ := by
    simp only [computePoseError, h2, harc2, rotErrOf_halfturn_negx]
  rw [hL, hR]
  intro hcon
  have hx := congrArg V3.x hcon
  simp only [V3.x] at hx
  have hpi := Real.pi_pos
  linarith

/-- Witness for the C7 amended theorem: at identity current orientation the
relative scalar part is 1 (nonzero) for an identity target, so the
rotational errors agree; at the 180-degree target of the counterexample the
relative scalar part is 0 and the rotational errors are negatives. -/
theorem computePoseError_antipodal_witness :
    ((computePoseError Real.sqrt Real.arccos ⟨0, 0, 0⟩ ⟨0, 0, 0⟩
        ⟨1, 0, 0, 0⟩ ⟨1, 0, 0, 0⟩).2.2 =
      (computePoseError Real.sqrt Real.arccos ⟨0, 0, 0⟩ ⟨0, 0, 0⟩
        (qneg ⟨1, 0, 0, 0⟩) ⟨1, 0, 0, 0⟩).2.2) ∧
    ((computePoseError Real.sqrt Real.arccos ⟨0, 0, 0⟩ ⟨0, 0, 0⟩
        ⟨1, 0, 0, 0⟩ ⟨1, 0, 0, 0⟩).2.1 =
      (computePoseError Real.sqrt Real.arccos ⟨0, 0, 0⟩ ⟨0, 0, 0⟩
        (qneg ⟨1, 0, 0, 0⟩) ⟨1, 0, 0, 0⟩).2.1) ∧
    ((computePoseError Real.sqrt Real.arccos ⟨0, 0, 0⟩ ⟨0, 0, 0⟩
        ⟨0, 1, 0, 0⟩ ⟨1, 0, 0, 0⟩).2.1 =
      -((computePoseError Real.sqrt Real.arccos ⟨0, 0, 0⟩ ⟨0, 0, 0⟩
        (qneg ⟨0, 1, 0, 0⟩) ⟨1, 0, 0, 0⟩).2.1)) := by
  have hw1 : (relQuat (⟨1, 0, 0, 0⟩ : Quat ℝ) ⟨1, 0, 0, 0⟩).w ≠ 0 := by
    simp only [relQuat, qmul, qconj]
    norm_num
  have hw0 : (relQuat (⟨0, 1, 0, 0⟩ : Quat ℝ) ⟨1, 0, 0, 0⟩).w = 0 := by
    simp only [relQuat, qmul, qconj]
    norm_num
  exact ⟨(computePoseError_antipodal ⟨0, 0, 0⟩ ⟨0, 0, 0⟩ ⟨1, 0, 0, 0⟩
      ⟨1, 0, 0, 0⟩).2.1,
    (computePoseError_antipodal ⟨0, 0, 0⟩ ⟨0, 0, 0⟩ ⟨1, 0, 0, 0⟩
      ⟨1, 0, 0, 0⟩).2.2.1 hw1,
    (computePoseError_antipodal ⟨0, 0, 0⟩ ⟨0, 0, 0⟩ ⟨0, 1, 0, 0⟩
      ⟨1, 0, 0, 0⟩).2.2.2 hw0⟩

theorem v3len_smul (c : ℝ) (v : V3 ℝ) :
    v3len Real.sqrt (c • v) = |c| * v3len Real.sqrt v := by
  obtain ⟨x, y, z⟩ := v
  simp only [v3len, v3_smul_def]
  rw [show c * x * (c * x) + c * y * (c * y) + c * z * (c * z) =
      c ^ 2 * (x * x + y * y + z * z) by ring,
    Real.sqrt_mul (sq_nonneg c), Real.sqrt_sq_eq_abs]

theorem v3_add_sub_cancel (a b : V3 ℝ) : (a + b) - a = b := by
  obtain ⟨ax, ay, az⟩ := a
  obtain ⟨bx, by', bz⟩ := b
  simp only [v3_add_def, v3_sub_def, V3.mk.injEq]
  refine ⟨by ring, by ring, by ring⟩

/-- C10 (target-lead clamp): whenever the pre-existing distance from the
current end-effector position to the target exceeds the configured maximum
(and the maximum is at least the `1e-6` degenerate-direction guard), the
target is pulled back along the line toward the current position to lead
distance exactly the maximum, and only then is the delta added. -/
theorem adjustTargetPosition_lead_clamp (maxLead : ℝ) (cur tgt delta : V3 ℝ)
    (hml : 1/1000000 ≤ maxLead)
    (hlead : maxLead < v3len Real.sqrt (tgt - cur)) :
    adjustTargetPositionPos maxLead cur tgt delta =
      (cur + maxLead • ((1 / v3len Real.sqrt (tgt - cur)) • (tgt - cur))) + delta ∧
    v3len Real.sqrt
        ((cur + maxLead • ((1 / v3len Real.sqrt (tgt - cur)) • (tgt - cur))) - cur)
      = maxLead := by
  have hm0 : (0 : ℝ) < maxLead := lt_of_lt_of_le (by norm_num) hml
  have hpos : 0 < v3len Real.sqrt (tgt - cur) := lt_trans hm0 hlead
  have hne : v3len Real.sqrt (tgt - cur) ≠ 0 := ne_of_gt hpos
  constructor
  · simp only [adjustTargetPositionPos]
    rw [if_pos ⟨hlead, by linarith⟩, if_neg hne]
  · rw [v3_add_sub_cancel, v3len_smul, v3len_smul,
      abs_of_nonneg (le_of_lt hm0),
      abs_of_nonneg (le_of_lt (by positivity : (0:ℝ) < 1 / v3len Real.sqrt (tgt - cur))),
      one_div, inv_mul_cancel₀ hne, mul_one]

/-- Witness for the C10 theorem: target one meter ahead of the current
position along x, default maximum lead `0.03`. -/
theorem adjustTargetPosition_lead_clamp_witness :
    adjustTargetPositionPos (3/100) ⟨0, 0, 0⟩ ⟨1, 0, 0⟩ ⟨0, 0, 0⟩ =
      ((⟨0, 0, 0⟩ : V3 ℝ) + (3/100 : ℝ) •
        ((1 / v3len Real.sqrt ((⟨1, 0, 0⟩ : V3 ℝ) - ⟨0, 0, 0⟩)) •
          ((⟨1, 0, 0⟩ : V3 ℝ) - ⟨0, 0, 0⟩))) + ⟨0, 0, 0⟩ ∧
    v3len Real.sqrt
        (((⟨0, 0, 0⟩ : V3 ℝ) + (3/100 : ℝ) •
          ((1 / v3len Real.sqrt ((⟨1, 0, 0⟩ : V3 ℝ) - ⟨0, 0, 0⟩)) •
            ((⟨1, 0, 0⟩ : V3 ℝ) - ⟨0, 0, 0⟩))) - ⟨0, 0, 0⟩)
      = 3/100 := by
  have hv : v3len Real.sqrt ((⟨1, 0, 0⟩ : V3 ℝ) - ⟨0, 0, 0⟩) = 1 := by
    simp only [v3len, v3_sub_def]
    norm_num [Real.sqrt_one]
  exact adjustTargetPosition_lead_clamp (3/100) ⟨0, 0, 0⟩ ⟨1, 0, 0⟩ ⟨0, 0, 0⟩
    (by norm_num) (by rw [hv]; norm_num)

/-- C8 (fatal construction): the `IKController` constructor produces a
usable instance exactly when the configured end-effector body name is
present, non-empty and resolves to a body, and every controlled DOF
resolves to an actuator through the exact/prefixed/suffix matching of
`findActuatorIdx` — those are the only fatal configuration conditions
(unresolvable or unsupported joint names are skipped, not fatal). -/
theorem except_bind_error {α β : Type} (s : String)
    (f : α → Except String β) :
    (Except.error s >>= f) = Except.error s := rfl

theorem except_bind_ok {α β : Type} (a : α) (f : α → Except String β) :
    (Except.ok a >>= f) = f a := rfl

theorem except_map_error {α β : Type} (s : String) (f : α → β) :
    (f <$> (Except.error s : Except String α)) = Except.error s := rfl

theorem except_map_ok {α β : Type} (a : α) (f : α → β) :
    (f <$> (Except.ok a : Except String α)) = Except.ok (f a) := rfl

theorem construct_fatal_iff (m : MjModel) (cfg : Config) (qpos0 ctrl0 : List ℚ)
    (p : V3 ℚ) (q : Quat ℚ) :
    (∃ r, construct m cfg qpos0 ctrl0 p q = .ok r) ↔
    ((∃ n, cfg.endEffectorBodyName = some n ∧ n ≠ "" ∧
        (findIdByName n m.bodyNames).isSome) ∧
      missingActuators (actuatorMapOf m cfg.jointNames)
        (resolveJointDofs m cfg.jointNames) = []) := by
  cases hee : cfg.endEffectorBodyName with
  | none =>
      simp [construct, resolveEndEffectorBodyId, hee, except_bind_error,
        except_bind_ok, except_map_error, except_map_ok]
  | some n =>
      by_cases hne : n = ""
      · subst hne
        simp [construct, resolveEndEffectorBodyId, hee, except_bind_error,
          except_bind_ok, except_map_error, except_map_ok]
      · cases hf : findIdByName n m.bodyNames with
        | none =>
            simp [construct, resolveEndEffectorBodyId, hee, hne, hf,
              except_bind_error, except_bind_ok, except_map_error,
              except_map_ok]
        | some bodyId =>
            by_cases hm : missingActuators (actuatorMapOf m cfg.jointNames)
                (resolveJointDofs m cfg.jointNames) = []
            · simp [construct, resolveEndEffectorBodyId,
                buildQposToActuatorMap, hee, hne, hf, hm, except_bind_error,
                except_bind_ok, except_map_error, except_map_ok]
            · simp [construct, resolveEndEffectorBodyId,
                buildQposToActuatorMap, hee, hne, hf, hm, except_bind_error,
                except_bind_ok, except_map_error, except_map_ok]

/-- Witness for the C8 theorem: on the one-joint model `mJoint` with a
resolvable end effector and actuator the constructor succeeds. -/
theorem construct_fatal_iff_witness :
    ∃ r, construct mJoint cfgJ [0] [0] ⟨0, 0, 0⟩ ⟨1, 0, 0, 0⟩ = .ok r := by
  refine (construct_fatal_iff mJoint cfgJ [0] [0] ⟨0, 0, 0⟩ ⟨1, 0, 0, 0⟩).mpr
    ⟨⟨"ee", rfl, by decide, by decide⟩, by decide⟩

/-- A successful `mget` exhibits a member of the association list. -/
theorem mget_mem {α β : Type} [DecidableEq α] (m : List (α × β)) (k : α)
    (v : β) (h : mget m k = some v) : (k, v) ∈ m := by
  simp only [mget] at h
  rcases Option.map_eq_some'.mp h with ⟨pr, hfind, hpe⟩
  have hmem := List.mem_of_find?_eq_some hfind
  obtain ⟨k', v'⟩ := pr
  have hkey : k' = k := by simpa using List.find?_some hfind
  have hval : v' = v := hpe
  subst hkey
  subst hval
  exact hmem

/-- `mset` preserves a property shared by all stored values when the new
value also satisfies it. -/
theorem mset_values {α β : Type} [DecidableEq α] (Q : β → Prop)
    (m : List (α × β)) (k : α) (v : β)
    (hm : ∀ p ∈ m, Q p.2) (hv : Q v) : ∀ p ∈ mset m k v, Q p.2 := by
  intro p hp
  simp only [mset] at hp
  split_ifs at hp
  · rcases List.mem_map.mp hp with ⟨r, hr, hpe⟩
    by_cases hrk : r.1 = k
    · rw [if_pos hrk] at hpe
      rw [← hpe]
      exact hv
    · rw [if_neg hrk] at hpe
      rw [← hpe]
      exact hm r hr
  · rcases List.mem_append.mp hp with h | h
    · exact hm p h
    · rw [List.mem_singleton] at h
      rw [h]
      exact hv

/-- `foldl_preserves` refined to fold steps that only need to preserve the
invariant on members of the folded list. -/
theorem foldl_preserves_of_mem {α β : Type} (P : β → Prop) (g : β → α → β) :
    ∀ (l : List α), (∀ b a, a ∈ l → P b → P (g b a)) →
      ∀ b, P b → P (List.foldl g b l) := by
  intro l
  induction l with
  | nil => intro _ b h; exact h
  | cons x xs ih =>
      intro hg b h
      exact ih (fun b a ha hb => hg b a (List.mem_cons_of_mem _ ha) hb) _
        (hg b x (List.mem_cons_self _ _) h)

/-- Every index stored by `actuatorNameToIndex` is a valid index into the
model's actuator name list. -/
theorem actuatorNameToIndex_values (m : MjModel) :
    ∀ p ∈ actuatorNameToIndex m, p.2 < m.actuatorNames.length := by
  unfold actuatorNameToIndex
  intro p hp
  exact foldl_preserves_of_mem
    (fun tbl => ∀ r ∈ tbl, r.2 < m.actuatorNames.length)
    (fun acc a => mset acc (m.actuatorNames.getD a "") a)
    (List.range m.actuatorNames.length)
    (fun b a ha hb => mset_values (fun x => x < m.actuatorNames.length)
      b _ a hb (List.mem_range.mp ha))
    [] (fun r hr => absurd hr (List.not_mem_nil r)) p hp

/-- `findActuatorIdx` only returns valid actuator indices. -/
theorem findActuatorIdx_lt (m : MjModel) (jointName : String) (a : Nat)
    (h : findActuatorIdx m jointName = some a) :
    a < m.actuatorNames.length := by
  have hvals := actuatorNameToIndex_values m
  simp only [findActuatorIdx] at h
  cases h1 : mget (actuatorNameToIndex m) jointName with
  | some idx =>
      simp only [h1] at h
      injection h with h
      subst h
      exact hvals _ (mget_mem _ _ _ h1)
  | none =>
      simp only [h1] at h
      cases h2 : mget (actuatorNameToIndex m) ("franka/" ++ jointName) with
      | some idx =>
          simp only [h2] at h
          injection h with h
          subst h
          exact hvals _ (mget_mem _ _ _ h2)
      | none =>
          simp only [h2] at h
          rcases Option.map_eq_some'.mp h with ⟨pr, hfind, hpe⟩
          rw [← hpe]
          exact hvals pr (List.mem_of_find?_eq_some hfind)

/-- Every actuator index stored by the map-building loop of
`buildQposToActuatorMap` is a valid index into the model's actuator list. -/
theorem actuatorMapOf_values (m : MjModel) (names : List String) :
    ∀ p ∈ actuatorMapOf m names, p.2 < m.actuatorNames.length := by
  unfold actuatorMapOf
  intro p hp
  refine foldl_preserves_of_mem
    (fun tbl => ∀ r ∈ tbl, r.2 < m.actuatorNames.length) _ names ?_ []
    (fun r hr => absurd hr (List.not_mem_nil r)) p hp
  intro b jointName _ hb
  cases h1 : mget (jointNameToQposAddr m) jointName with
  | none => simpa only [h1] using hb
  | some qa =>
      cases h2 : findActuatorIdx m jointName with
      | none => simpa only [h1, h2] using hb
      | some ai =>
          simp only [h1, h2]
          exact mset_values (fun x => x < m.actuatorNames.length) b qa ai hb
            (findActuatorIdx_lt m jointName ai h2)

/-- An empty missing-actuator report means every controlled DOF has an
entry in the actuator map. -/
theorem missingActuators_nil (amap : List (Nat × Nat)) (dofs : List Nat)
    (h : missingActuators amap dofs = []) :
    ∀ addr ∈ dofs, ∃ a, mget amap addr = some a := by
  intro addr ha
  simp only [missingActuators] at h
  by_cases hopt : (mget amap addr).isNone = true
  · exfalso
    have hmem : addr ∈ dofs.filter (fun addr => (mget amap addr).isNone) :=
      List.mem_filter.mpr ⟨ha, hopt⟩
    rw [h] at hmem
    exact absurd hmem (List.not_mem_nil addr)
  · cases hopt2 : mget amap addr with
    | some a => exact ⟨a, rfl⟩
    | none => exact absurd (by simp [hopt2]) hopt

/-- A successful construction establishes the actuator-binding invariant
assumed by the C5 theorem: every controlled DOF is mapped by the
constructed `qposToActuatorMap` to an actuator index that is a valid index
into the model's actuator list (the source's `ctrl` buffer has exactly one
entry per actuator). -/
theorem construct_establishes_wf (m : MjModel) (cfg : Config)
    (qpos0 ctrl0 : List ℚ) (p : V3 ℚ) (q : Quat ℚ) (c : Controller)
    (st0 : IKState)
    (h : construct m cfg qpos0 ctrl0 p q = .ok (c, st0)) :
    ∀ addr ∈ c.controlledDofs, ∃ a,
      mget c.qposToActuatorMap addr = some a ∧
        a < m.actuatorNames.length := by
  cases hee : cfg.endEffectorBodyName with
  | none =>
      simp [construct, resolveEndEffectorBodyId, hee, except_bind_error] at h
  | some n =>
      by_cases hne : n = ""
      · subst hne
        simp [construct, resolveEndEffectorBodyId, hee,
          except_bind_error] at h
      · cases hf : findIdByName n m.bodyNames with
        | none =>
            simp [construct, resolveEndEffectorBodyId, hee, hne, hf,
              except_bind_error, except_bind_ok] at h
        | some bodyId =>
            by_cases hm : missingActuators (actuatorMapOf m cfg.jointNames)
                (resolveJointDofs m cfg.jointNames) = []
            · simp [construct, resolveEndEffectorBodyId,
                buildQposToActuatorMap, hee, hne, hf, hm, except_bind_error,
                except_bind_ok, except_map_error, except_map_ok] at h
              obtain ⟨hc, -⟩ := h
              subst hc
              intro addr ha
              have ha2 : addr ∈ resolveJointDofs m cfg.jointNames := ha
              obtain ⟨a, hget⟩ := missingActuators_nil _ _ hm addr ha2
              exact ⟨a, hget,
                actuatorMapOf_values m cfg.jointNames _ (mget_mem _ _ _ hget)⟩
            · simp [construct, resolveEndEffectorBodyId,
                buildQposToActuatorMap, hee, hne, hf, hm, except_bind_error,
                except_bind_ok, except_map_error, except_map_ok] at h

theorem update_clean (env : Env) (cfg : Config) (c : Controller) (m : MjModel)
    (st : IKState) (p : Bool) (h : st.targetDirty = false) :
    ∃ st', update env cfg c m st p = .ok st' ∧ st'.ctrl = st.ctrl ∧
      st'.targetDirty = false := by
  simp only [update]
  by_cases hInit : st.targetInitialized = true
  · rw [if_pos hInit]
    by_cases hm : (cfg.mode = "free" ∨ cfg.mode = "auto") ∧ 0 ≤ c.mocapId
    · rw [if_pos hm]
      refine ⟨_, rfl, ?_, ?_⟩
      · simp only [applyMocapTarget]; split <;> rfl
      · simp only [applyMocapTarget]
        split
        · exact h
        · rfl
    · rw [if_neg hm]
      by_cases hd : c.controlledDofs.isEmpty = true
      · rw [if_pos hd]; exact ⟨st, rfl, rfl, h⟩
      · rw [if_neg hd, if_pos (by simp [h])]; exact ⟨st, rfl, rfl, h⟩
  · rw [if_neg hInit]
    by_cases hm : (cfg.mode = "free" ∨ cfg.mode = "auto") ∧ 0 ≤ c.mocapId
    · rw [if_pos hm]
      refine ⟨_, rfl, ?_, ?_⟩
      · simp only [applyMocapTarget, syncTargetsFromModel]; split <;> rfl
      · simp only [applyMocapTarget, syncTargetsFromModel]
        split
        · rfl
        · rfl
    · rw [if_neg hm]
      by_cases hd : c.controlledDofs.isEmpty = true
      · rw [if_pos hd]; exact ⟨_, rfl, rfl, rfl⟩
      · rw [if_neg hd, if_pos (by simp [syncTargetsFromModel])]
        exact ⟨_, rfl, rfl, rfl⟩

/-- C9 (idempotence when clean): whenever the target dirty flag is false,
any number of repeated `update()` calls leaves every actuator command value
in `data.ctrl` unchanged (each call returns before any write to `ctrl`:
mocap mode writes only the mocap buffers, and the joint-space path returns
at the dirty check). -/
theorem update_clean_idempotent (env : Env) (cfg : Config) (c : Controller)
    (m : MjModel) (p : Bool) :
    ∀ (n : Nat) (st : IKState), st.targetDirty = false →
      (updateIterate env cfg c m p n st).ctrl = st.ctrl := by
  intro n
  induction n with
  | zero => intro st _; rfl
  | succ k ih =>
      intro st h
      obtain ⟨st', heq, hctrl, hdirty⟩ := update_clean env cfg c m st p h
      simp only [updateIterate, heq]
      rw [ih st' hdirty, hctrl]

/-- Witness for the C9 theorem: three repeated calls on a clean state leave
`ctrl` unchanged. -/
theorem update_clean_idempotent_witness :
    (updateIterate envW defConfig cW mW false 3 stW).ctrl = stW.ctrl :=
  update_clean_idempotent envW defConfig cW mW false 3 stW rfl

theorem lmTrialLoop_some_accepted (env : Env) (cfg : Config) (c : Controller)
    (m : MjModel) (st : IKState) (jac w e H g : List ℚ) (dofCount : Nat)
    (currentCost : ℚ) :
    ∀ (fuel : Nat) (lam : ℚ) (s : List ℚ),
      (lmTrialLoop env cfg c m st jac w e H g dofCount currentCost fuel lam).1 =
        some s →
      lmProposedCost env cfg c m st w (lmCandidate c st.qpos s) < currentCost := by
  intro fuel
  induction fuel with
  | zero =>
      intro lam s h
      simp [lmTrialLoop] at h
  | succ k ih =>
      intro lam s h
      simp only [lmTrialLoop, apply_ite Prod.fst] at h
      split at h <;> split at h
      case isTrue.isTrue hdt hacc =>
        cases h
        exact hacc.1
      case isTrue.isFalse hdt hacc => exact ih _ s h
      case isFalse.isTrue hdt hacc =>
        cases h
        exact hacc.1
      case isFalse.isFalse hdt hacc => exact ih _ s h

theorem lmStep_state_qpos (env : Env) (cfg : Config) (c : Controller)
    (m : MjModel) (st : IKState) (jac : List ℚ) :
    (computeLevenbergMarquardtStep env cfg c m st jac).2.2.qpos = st.qpos ∧
    (computeLevenbergMarquardtStep env cfg c m st jac).2.2.translationError =
      st.translationError ∧
    (computeLevenbergMarquardtStep env cfg c m st jac).2.2.rotationError =
      st.rotationError ∧
    (computeLevenbergMarquardtStep env cfg c m st jac).2.2.jtFallbackCount =
      st.jtFallbackCount := by
  refine ⟨?_, ?_, ?_, ?_⟩ <;>
    · simp only [computeLevenbergMarquardtStep, mjForward]
      split <;> rfl

/-- C6 (LM failure signal): `computeLevenbergMarquardtStep` returns an
accepted step only when its re-evaluated cost strictly decreases, so a
`some` result is never a synthetic zero step and `none` is the distinguished
failure signal of trial exhaustion; and when it returns `none`, the
caller's step selection (the solver-selection block of `update`) invokes
the Jacobian-Transpose fallback step for that iteration whenever the
fallback is enabled (and the consecutive-fallback cap is not hit, which
would snap instead). -/
theorem lm_failure_signal_fallback (env : Env) (cfg : Config) (c : Controller)
    (m : MjModel) (st : IKState) (jac : List ℚ) :
    (∀ s, (computeLevenbergMarquardtStep env cfg c m st jac).1 = some s →
      lmProposedCost env cfg c m st (lmWeights cfg st.holdOrientation)
          (lmCandidate c st.qpos s) <
        weightedSq (lmWeights cfg st.holdOrientation)
            (lmResidual cfg st.translationError st.rotationError) +
          jointLimitPenalty cfg c m st.qpos) ∧
    ((computeLevenbergMarquardtStep env cfg c m st jac).1 = none →
      cfg.useJacobianTransposeFallback = true →
      (cfg.useSmartSolverSelection && isAnyJointNearLimit cfg c m st.qpos) =
        false →
      st.jtFallbackCount + 1 < cfg.jtFallbackMaxConsecutive →
      (chooseStep env cfg c m st jac).1 =
        .apply (computeJacobianTransposeFallbackStep cfg c m st.qpos
          st.translationError st.rotationError jac) true) := by
  obtain ⟨hq, hte, hre, hcnt⟩ := lmStep_state_qpos env cfg c m st jac
  constructor
  · intro s hs
    simp only [computeLevenbergMarquardtStep] at hs
    exact lmTrialLoop_some_accepted env cfg c m st jac _ _ _ _ _ _
      cfg.lmMaxTrials _ s hs
  · intro hnone hfb hnear hcount
    have hguard : ((cfg.useSmartSolverSelection &&
        isAnyJointNearLimit cfg c m st.qpos) &&
        cfg.useJacobianTransposeFallback) = false := by
      rw [hnear]; rfl
    simp only [chooseStep, hguard, Bool.false_eq_true, if_false, hnone, hq,
      hte, hre, hcnt]
    rw [hfb, if_pos rfl,
      if_neg (show ¬ (cfg.jtFallbackMaxConsecutive ≤ st.jtFallbackCount + 1)
        by omega)]

/-- Witness for the C6 theorem: with the trial cap at zero the LM solver
accepts no trial and returns the failure signal, and the step selection
invokes the Jacobian-Transpose fallback step. -/
theorem lm_failure_signal_fallback_witness :
    (computeLevenbergMarquardtStep envW cfg0 cW mW stW
      [0, 0, 0, 0, 0, 0]).1 = none ∧
    (chooseStep envW cfg0 cW mW stW [0, 0, 0, 0, 0, 0]).1 =
      .apply (computeJacobianTransposeFallbackStep cfg0 cW mW stW.qpos
        stW.translationError stW.rotationError [0, 0, 0, 0, 0, 0]) true := by
  have hn : (computeLevenbergMarquardtStep envW cfg0 cW mW stW
      [0, 0, 0, 0, 0, 0]).1 = none := rfl
  exact ⟨hn, (lm_failure_signal_fallback envW cfg0 cW mW stW
    [0, 0, 0, 0, 0, 0]).2 hn rfl (by decide) (by decide)⟩

theorem applyLoop_ok (cfg : Config) (c : Controller) (m : MjModel)
    (qpos step : List ℚ) :
    ∀ (dofs : List Nat) (i : Nat) (ctrl : List ℚ),
      (∀ addr ∈ dofs, ∃ a, mget c.qposToActuatorMap addr = some a ∧
        a < ctrl.length) →
      ∃ ctrl', applyLoop cfg c m qpos step dofs i ctrl = .ok ctrl' ∧
        ctrl'.length = ctrl.length := by
  intro dofs
  induction dofs with
  | nil => intro i ctrl _; exact ⟨ctrl, rfl, rfl⟩
  | cons addr rest ih =>
      intro i ctrl hwf
      obtain ⟨a, hmg, hlt⟩ := hwf addr (List.mem_cons_self _ _)
      simp only [applyLoop, hmg]
      rw [if_neg (by omega)]
      have hrest : ∀ addr' ∈ rest, ∃ a',
          mget c.qposToActuatorMap addr' = some a' ∧
          a' < (ctrl.set a (newCtrlValue cfg (ctrlRangeOf m a)
            (jointRangeOf m c addr) (qpos.getD addr 0) (ctrl.getD a 0)
            (step.getD i 0))).length := by
        intro addr' hm
        obtain ⟨a', h1, h2⟩ := hwf addr' (List.mem_cons_of_mem _ hm)
        exact ⟨a', h1, by simpa [List.length_set] using h2⟩
      obtain ⟨ctrl', h1, h2⟩ := ih (i + 1) _ hrest
      exact ⟨ctrl', h1, by rw [h2, List.length_set]⟩

theorem applyJointIncrement_ok (cfg : Config) (c : Controller) (m : MjModel)
    (st : IKState) (step : List ℚ)
    (hwf : ∀ addr ∈ c.controlledDofs, ∃ a,
      mget c.qposToActuatorMap addr = some a ∧ a < st.ctrl.length) :
    ∃ r, applyJointIncrement cfg c m st step = .ok r ∧
      r.1.ctrl.length = st.ctrl.length := by
  simp only [applyJointIncrement]
  split_ifs with he
  · exact ⟨(st, false), rfl, rfl⟩
  · obtain ⟨ctrl', h1, h2⟩ := applyLoop_ok cfg c m st.qpos step
      c.controlledDofs 0 st.ctrl hwf
    rw [h1]
    exact ⟨({ st with ctrl := ctrl' }, true), rfl, h2⟩

theorem foldl_preserves {α β : Type} (P : β → Prop) (g : β → α → β)
    (hg : ∀ b a, P b → P (g b a)) :
    ∀ (l : List α) (b : β), P b → P (List.foldl g b l) := by
  intro l
  induction l with
  | nil => intro b h; exact h
  | cons x xs ih => intro b h; exact ih _ (hg _ _ h)

theorem computeNumericalJacobian_ctrl (env : Env) (c : Controller)
    (st : IKState) :
    (computeNumericalJacobian env c st).2.ctrl = st.ctrl := by
  unfold computeNumericalJacobian
  show (List.foldl _ ([], st) c.controlledDofs).2.ctrl = st.ctrl
  refine foldl_preserves
    (fun pr : List (V3 ℚ × V3 ℚ) × IKState => pr.2.ctrl = st.ctrl) _
    ?_ c.controlledDofs ([], st) rfl
  intro b a h
  exact h

theorem computeLM_ctrl (env : Env) (cfg : Config) (c : Controller)
    (m : MjModel) (st : IKState) (jac : List ℚ) :
    (computeLevenbergMarquardtStep env cfg c m st jac).2.2.ctrl = st.ctrl := by
  simp only [computeLevenbergMarquardtStep, mjForward]
  split <;> rfl

theorem snapTargetToCurrent_ctrl (env : Env) (cfg : Config) (st : IKState) :
    (snapTargetToCurrent env cfg st).ctrl = st.ctrl := by
  simp only [snapTargetToCurrent]
  split <;> rfl

theorem chooseStep_ctrl (env : Env) (cfg : Config) (c : Controller)
    (m : MjModel) (st : IKState) (jac : List ℚ) :
    (chooseStep env cfg c m st jac).2.ctrl = st.ctrl := by
  have hlm := computeLM_ctrl env cfg c m st jac
  simp only [chooseStep]
  split
  · split
    · rw [snapTargetToCurrent_ctrl]
    · rfl
  · split
    · exact hlm
    · split
      · split
        · rw [snapTargetToCurrent_ctrl]; exact hlm
        · exact hlm
      · rw [snapTargetToCurrent_ctrl]; exact hlm

theorem iterTail_ok (cfg : Config) (c : Controller) (m : MjModel)
    (ch : IterAction × IKState)
    (hwf : ∀ addr ∈ c.controlledDofs, ∃ a,
      mget c.qposToActuatorMap addr = some a ∧ a < ch.2.ctrl.length) :
    ∃ r, iterTail cfg c m ch = .ok r ∧
      r.2.ctrl.length = ch.2.ctrl.length := by
  obtain ⟨act, stx⟩ := ch
  cases act with
  | halt => exact ⟨(false, stx), rfl, rfl⟩
  | apply step u =>
      obtain ⟨r, hr, hlen⟩ := applyJointIncrement_ok cfg c m stx step hwf
      simp only [iterTail, hr]
      exact ⟨(r.2, r.1), rfl, hlen⟩

theorem iterStall_ctrl (cfg : Config) (e : ℚ) (st : IKState) :
    (iterStall cfg e st).ctrl = st.ctrl := by
  simp only [iterStall]
  split
  · rfl
  · split <;> rfl

theorem iterDecide_ok (env : Env) (cfg : Config) (c : Controller)
    (m : MjModel) (e : ℚ) (st : IKState)
    (hwf : ∀ addr ∈ c.controlledDofs, ∃ a,
      mget c.qposToActuatorMap addr = some a ∧ a < st.ctrl.length) :
    ∃ r, iterDecide env cfg c m e st = .ok r ∧
      r.2.ctrl.length = st.ctrl.length := by
  simp only [iterDecide]
  split_ifs with h1 h2 h3
  · refine ⟨_, rfl, ?_⟩
    show (snapTargetToCurrent env cfg st).ctrl.length = st.ctrl.length
    rw [snapTargetToCurrent_ctrl]
  · exact ⟨_, rfl, rfl⟩
  · exact ⟨_, rfl, rfl⟩
  · have hwf2 : ∀ addr ∈ c.controlledDofs, ∃ a,
        mget c.qposToActuatorMap addr = some a ∧
        a < (chooseStep env cfg c m (computeNumericalJacobian env c st).2
          (computeNumericalJacobian env c st).1).2.ctrl.length := by
      intro addr hm
      obtain ⟨a, ha, hl⟩ := hwf addr hm
      refine ⟨a, ha, ?_⟩
      rw [chooseStep_ctrl, computeNumericalJacobian_ctrl]
      exact hl
    obtain ⟨r, hr, hlen⟩ := iterTail_ok cfg c m _ hwf2
    refine ⟨r, hr, ?_⟩
    rw [hlen, chooseStep_ctrl, computeNumericalJacobian_ctrl]

theorem iterBody_ok (env : Env) (cfg : Config) (c : Controller) (m : MjModel)
    (st : IKState)
    (hwf : ∀ addr ∈ c.controlledDofs, ∃ a,
      mget c.qposToActuatorMap addr = some a ∧ a < st.ctrl.length) :
    ∃ r, iterBody env cfg c m st = .ok r ∧
      r.2.ctrl.length = st.ctrl.length := by
  have key : ∀ (e : ℚ) (Y : IKState), Y.ctrl = st.ctrl →
      ∃ r, iterDecide env cfg c m e (iterStall cfg e Y) = .ok r ∧
        r.2.ctrl.length = st.ctrl.length := by
    intro e Y hY
    have hwf' : ∀ addr ∈ c.controlledDofs, ∃ a,
        mget c.qposToActuatorMap addr = some a ∧
        a < (iterStall cfg e Y).ctrl.length := by
      intro addr hm
      obtain ⟨a, h1, h2⟩ := hwf addr hm
      exact ⟨a, h1, by rw [iterStall_ctrl, hY]; exact h2⟩
    obtain ⟨r, h1, h2⟩ := iterDecide_ok env cfg c m e _ hwf'
    exact ⟨r, h1, by rw [h2, iterStall_ctrl, hY]⟩
  simp only [iterBody]
  refine key _ _ ?_
  simp only [computePoseErrorQ]
  split <;> rfl

theorem solveLoop_ok (env : Env) (cfg : Config) (c : Controller)
    (m : MjModel) :
    ∀ (n : Nat) (st : IKState),
      (∀ addr ∈ c.controlledDofs, ∃ a,
        mget c.qposToActuatorMap addr = some a ∧ a < st.ctrl.length) →
      ∃ st', solveLoop env cfg c m n st = .ok st' := by
  intro n
  induction n with
  | zero => intro st _; exact ⟨st, rfl⟩
  | succ k ih =>
      intro st hwf
      obtain ⟨r, hr, hlen⟩ := iterBody_ok env cfg c m st hwf
      obtain ⟨b, st2⟩ := r
      simp only [solveLoop, hr]
      cases b with
      | false => exact ⟨st2, rfl⟩
      | true =>
          refine ih st2 ?_
          intro addr hm
          obtain ⟨a, h1, h2⟩ := hwf addr hm
          exact ⟨a, h1, by rw [hlen]; exact h2⟩

/-- C5 (no exception escapes `update`): for every state whose controlled
DOFs all carry a valid actuator binding (the invariant `construct`
establishes and nothing ever mutates — see `construct_fatal_iff`), and for
every pausing flag, `update` returns normally; the only `throw` in the
solve path, the missing/out-of-range actuator binding check inside
`applyJointIncrement`, is unreachable under that invariant. -/
theorem update_no_exception (env : Env) (cfg : Config) (c : Controller)
    (m : MjModel) (st : IKState) (p : Bool)
    (hwf : ∀ addr ∈ c.controlledDofs, ∃ a,
      mget c.qposToActuatorMap addr = some a ∧ a < st.ctrl.length) :
    ∃ st', update env cfg c m st p = .ok st' := by
  simp only [update]
  by_cases hInit : st.targetInitialized = true
  case pos =>
    rw [if_pos hInit]
    by_cases hm : ((cfg.mode = "free" ∨ cfg.mode = "auto") ∧ 0 ≤ c.mocapId)
    · rw [if_pos hm]; exact ⟨_, rfl⟩
    · rw [if_neg hm]
      by_cases hd : c.controlledDofs.isEmpty = true
      · rw [if_pos hd]; exact ⟨_, rfl⟩
      · rw [if_neg hd]
        by_cases hdirty : st.targetDirty = true
        · rw [if_neg (by simp [hdirty])]
          exact solveLoop_ok env cfg c m _ st hwf
        · rw [if_pos (by simp [Bool.not_eq_true] at hdirty ⊢; exact hdirty)]
          exact ⟨_, rfl⟩
  case neg =>
    rw [if_neg hInit]
    by_cases hm : ((cfg.mode = "free" ∨ cfg.mode = "auto") ∧ 0 ≤ c.mocapId)
    · rw [if_pos hm]; exact ⟨_, rfl⟩
    · rw [if_neg hm]
      by_cases hd : c.controlledDofs.isEmpty = true
      · rw [if_pos hd]; exact ⟨_, rfl⟩
      · rw [if_neg hd, if_pos (by simp [syncTargetsFromModel])]
        exact ⟨_, rfl⟩

/-- Witness for the C5 theorem: a one-DOF controller with a valid binding,
a dirty target and the running-mode iteration cap; `update` returns
normally. -/
theorem update_no_exception_witness :
    ∃ st', update envW defConfig cW mW { stW with targetDirty := true }
      true = .ok st' :=
  update_no_exception envW defConfig cW mW { stW with targetDirty := true }
    true (by
      intro addr h
      have h0 : addr = 0 := by simpa [cW] using h
      subst h0
      exact ⟨0, rfl, by decide⟩)

end IKCheck
